import Mathlib

/-!
# OpenWorkoutFormat (OWF) — a shallow embedding of the core pipeline

This file embeds the OWF language core (`src/owf/…`) in Lean 4 and settles
the spec claims C1–C10 against it.

Modelling conventions:

* Python `float` values are modelled as exact rationals (`ℚ`).  Every numeric
  value exercised by the claims is produced from decimal literals and `+ - * /`
  on them, where rational arithmetic agrees with the source's semantics.
* Python strings are Lean `String`s; the regular expressions of the source are
  translated into explicit character-list parsers, alternative by alternative,
  in the order the (anchored) Python regexes try them.
* Fallible Python code (functions that may raise) returns `Except PyErr _`;
  an uncaught exception is an `Except.error`.
* `dataclass(frozen=True, slots=True)` nodes become structures/inductives.
  Fields declared with `compare=False` (all the `span` fields of AST nodes)
  never participate in Python equality and are omitted from the AST types;
  the scanner's `LogicalLine`, whose `span.line` is used algorithmically by
  the note-attachment pass, keeps its position fields.
* Recursive loops over shrinking lists/strings are written with an explicit
  fuel argument (`length + 1` is always sufficient because every iteration
  consumes at least one element); this keeps every definition structurally
  recursive and kernel-computable.
-/

/- `Rat.inv` and friends are `@[irreducible]` in this toolchain, which blocks
`decide`-style evaluation of concrete rational arithmetic (the kernel itself
unfolds them fine); restore the default reducibility for them. -/
set_option allowUnsafeReducibility true in
attribute [semireducible] Rat.inv Rat.mul Rat.add Rat.sub Rat.neg Rat.div
  Rat.blt Rat.normalize

namespace Owf

/-- The Python exceptions that the embedded code can raise. -/
inductive PyErr where
  | attributeError (cls attr : String)
  | parseError (msg : String)
  | resolveError (msg : String)
  | valueError (msg : String)
  deriving DecidableEq, Repr

/-! ## Python string primitives -/

/-- `str.strip()` on a character list: drop leading and trailing whitespace. -/
def pyStripChars (l : List Char) : List Char :=
  ((l.dropWhile Char.isWhitespace).reverse.dropWhile Char.isWhitespace).reverse

/-- `str.strip()`. -/
def pyStrip (s : String) : String :=
  String.mk (pyStripChars s.data)

/-- `str.rstrip()`: drop trailing whitespace. -/
def pyRStrip (s : String) : String :=
  String.mk ((s.data.reverse.dropWhile Char.isWhitespace).reverse)

/-- `str.lstrip()`: drop leading whitespace. -/
def pyLStrip (s : String) : String :=
  String.mk (s.data.dropWhile Char.isWhitespace)

/-- `str.lstrip(" ")`: drop leading spaces only. -/
def pyLStripSpaces (s : String) : String :=
  String.mk (s.data.dropWhile (· = ' '))

/-- `needle.isPrefixOf haystack` on char lists (Boolean). -/
def listStartsWith : List Char → List Char → Bool
  | [], _ => true
  | _ :: _, [] => false
  | a :: as, b :: bs => a == b && listStartsWith as bs

/-- Python's substring test `needle in haystack`. -/
def strContainsAux : ℕ → List Char → List Char → Bool
  | 0, _, _ => false
  | _ + 1, hay, needle =>
    listStartsWith needle hay ||
      match hay with
      | [] => false
      | _ :: t => strContainsAux t.length.succ t needle

/-- Python's substring test `needle in haystack` on strings. -/
def strContains (hay needle : String) : Bool :=
  strContainsAux (hay.data.length + 1) hay.data needle.data

/-!
The remaining string helpers mirror the Python string methods the source
uses.  (They are written over `String.data` with structural recursion, so
that concrete applications evaluate by `decide`.)
-/

/-- `s.startswith(p)`. -/
def strStartsWith (s p : String) : Bool := listStartsWith p.data s.data

/-- `s[n:]`. -/
def strDrop (s : String) (n : ℕ) : String := String.mk (s.data.drop n)

/-- `len(s)`. -/
def strLen (s : String) : ℕ := s.data.length

/-- `s.upper()` (ASCII, as the source's inputs are). -/
def strToUpper (s : String) : String := String.mk (s.data.map Char.toUpper)

/-- `s.lower()` (ASCII). -/
def strToLower (s : String) : String := String.mk (s.data.map Char.toLower)

/-- `s.replace(" ", "")`. -/
def removeSpaces (s : String) : String :=
  String.mk (s.data.filter (· ≠ ' '))

/-- `s.endswith(p)`. -/
def strEndsWith (s p : String) : Bool :=
  listStartsWith p.data.reverse s.data.reverse

/-- `sep.join(parts)`. -/
def joinWith (sep : String) : List String → String
  | [] => ""
  | [x] => x
  | x :: xs => x ++ sep ++ joinWith sep xs

/-- Split a char list at every occurrence of `c` (like `str.split("\n")`:
`n` separators yield `n + 1` parts). -/
def splitOnChar (c : Char) : List Char → List (List Char)
  | [] => [[]]
  | x :: t =>
    let r := splitOnChar c t
    if x = c then [] :: r
    else
      match r with
      | [] => [[x]]
      | h :: rt => (x :: h) :: rt

/-- `text.split("\n")` as strings. -/
def splitLines (s : String) : List String :=
  (splitOnChar '\n' s.data).map String.mk

/-! ## Decimal digits: model of Python's `str(int)` / `int(str)` -/

/-- The character for a single decimal digit. -/
def digitChar (d : ℕ) : Char := Char.ofNat (48 + d)

/-- Decimal digit string of a natural number, most significant digit first
(fuel-based so it is structurally recursive; `fuel > n` is always used). -/
def natToDigitsFuel : ℕ → ℕ → List Char
  | 0, _ => []
  | fuel + 1, n =>
    if n < 10 then [digitChar n]
    else natToDigitsFuel fuel (n / 10) ++ [digitChar (n % 10)]

/-- Decimal digit string of a natural number. -/
def natToDigits (n : ℕ) : List Char := natToDigitsFuel (n + 1) n

/-- Read a decimal digit string (assumed to contain digits only). -/
def digitsToNat (l : List Char) : ℕ :=
  l.foldl (fun a c => a * 10 + (c.toNat - 48)) 0

/-- Python `str(n)` for a natural number. -/
def natRepr (n : ℕ) : String := String.mk (natToDigits n)

/-- Python `str(z)` for an integer. -/
def intRepr (z : ℤ) : String :=
  if z < 0 then "-" ++ natRepr (-z).toNat else natRepr z.toNat

/-- Smallest exponent `k` (searched up to 1100, enough for any IEEE double)
with `den ∣ 10^k`, if any. -/
def decExponent (den : ℕ) : Option ℕ :=
  (List.range 1101).find? (fun k => 10 ^ k % den = 0)

/-- Left-pad a digit list with zeros to length `k`. -/
def padZeros (k : ℕ) (l : List Char) : List Char :=
  List.replicate (k - l.length) '0' ++ l

/-- Python `repr` of a non-integral float, modelled on exact rationals: the
terminating decimal expansion without trailing zeros (every Python float has
one).  Non-terminating rationals (unreachable from float-derived values) fall
back to a fraction rendering. -/
def qDecRepr (q : ℚ) : String :=
  let sign := if q < 0 then "-" else ""
  let a := |q|
  match decExponent a.den with
  | some k =>
    let scaled := a.num.toNat * 10 ^ k / a.den
    sign ++ natRepr (scaled / 10 ^ k) ++ "." ++
      String.mk (padZeros k (natToDigits (scaled % 10 ^ k)))
  | none => sign ++ natRepr a.num.toNat ++ "/" ++ natRepr a.den

/-- Python `f"{v}"` where `v = int(x) if x == int(x) else x`: integral values
render without a decimal point, others with their decimal expansion.
(`x == int(x)` for a rational is exactly `x.den = 1`.) -/
def numRepr (q : ℚ) : String :=
  if q.den = 1 then intRepr q.num else qDecRepr q

/-- Python `int(x)` (truncation toward zero) for a nonnegative rational,
as a natural number.  Used only where the source guarantees `x >= 0`. -/
def pyTruncNat (q : ℚ) : ℕ := q.num.toNat / q.den

/-- Model of Python's `float(s)` builtin on the decimal forms the source can
feed it (optional sign, digits with optional fraction; exponent/`inf`/`nan`
spellings are not exercised by this code base). -/
def pyFloat (s : String) : Option ℚ :=
  let l := pyStripChars s.data
  let signed : ℚ × List Char :=
    match l with
    | '+' :: t => (1, t)
    | '-' :: t => (-1, t)
    | _ => (1, l)
  let sign := signed.1
  let l1 := signed.2
  let ds := l1.takeWhile Char.isDigit
  let r := l1.dropWhile Char.isDigit
  match r with
  | [] => if ds = [] then none else some (sign * digitsToNat ds)
  | '.' :: t =>
    let fs := t.takeWhile Char.isDigit
    if t.dropWhile Char.isDigit = [] ∧ (ds ≠ [] ∨ fs ≠ []) then
      some (sign * ((digitsToNat ds : ℚ) + (digitsToNat fs : ℚ) / 10 ^ fs.length))
    else none
  | _ => none

/-! ### IEEE-754 double-precision rounding

Python floats are IEEE-754 binary64.  Most numeric steps in this code base
are exact in binary64 (integer arithmetic below `2 ^ 53`, decimal literals
at the magnitudes the tests use), and the embedding models them as exact
rationals.  `Duration.__str__` and `Duration.parse`, however, divide and
multiply arbitrary seconds values, and for large magnitudes the result is
*rounded* to 53 significant bits.  `roundDouble` models that rounding
(round-to-nearest, ties-to-even); overflow and subnormals are not
modelled, as no value these functions compute comes near either range. -/

/-- Floor of the binary logarithm, by repeated halving (fuel-based). -/
def natLog2Fuel : ℕ → ℕ → ℕ
  | 0, _ => 0
  | fuel + 1, n => if n ≤ 1 then 0 else natLog2Fuel fuel (n / 2) + 1

/-- `⌊log₂ n⌋` for `n ≥ 1`. -/
def natLog2 (n : ℕ) : ℕ := natLog2Fuel n n

/-- `⌊log₂ q⌋` of a positive rational: the numerator and denominator
logarithms give a first estimate `e0`, which is exact or one too large. -/
def qLog2 (q : ℚ) : ℤ :=
  let e0 : ℤ := (natLog2 q.num.toNat : ℤ) - (natLog2 q.den : ℤ)
  if (2 : ℚ) ^ e0 ≤ q then e0 else e0 - 1

/-- Round to the nearest integer, ties to the even one. -/
def roundTiesEven (x : ℚ) : ℤ :=
  if (1 : ℚ) / 2 < x - ⌊x⌋ then ⌊x⌋ + 1
  else if x - (⌊x⌋ : ℚ) < (1 : ℚ) / 2 then ⌊x⌋
  else if ⌊x⌋ % 2 = 0 then ⌊x⌋ else ⌊x⌋ + 1

/-- Round a rational to the nearest IEEE-754 binary64 value: scale by the
ulp `2 ^ (⌊log₂ |q|⌋ - 52)`, round to the nearest integer significand
(ties to even), scale back. -/
def roundDouble (q : ℚ) : ℚ :=
  if q = 0 then 0
  else
    let sgn : ℚ := if q < 0 then -1 else 1
    let s : ℚ := sgn * q
    let u : ℤ := qLog2 s - 52
    sgn * ((roundTiesEven (s / 2 ^ u) : ℚ) * 2 ^ u)

/-! ## `owf/units.py` — `Duration`, `Distance`, `Pace` -/

/-- `Duration` (units.py): a time duration stored as total seconds
(Python `float`, modelled as `ℚ`). -/
structure Duration where
  seconds : ℚ
  deriving DecidableEq, Repr

/-- The `hms` / `ms` alternatives of `Duration._PATTERN`:
`^\d+:\d{1,2}:\d{1,2}$` (hours:minutes:seconds) tried first, then
`^\d+:\d{2}$` (minutes:seconds).  Returns total seconds. -/
def parseColon (l : List Char) : Option ℚ :=
  let p1 := l.takeWhile (· ≠ ':')
  match l.dropWhile (· ≠ ':') with
  | ':' :: r1 =>
    let p2 := r1.takeWhile (· ≠ ':')
    match r1.dropWhile (· ≠ ':') with
    | ':' :: r2 =>
      if p1 ≠ [] ∧ p1.all Char.isDigit ∧
          (p2.length = 1 ∨ p2.length = 2) ∧ p2.all Char.isDigit ∧
          (r2.length = 1 ∨ r2.length = 2) ∧ r2.all Char.isDigit then
        some ((digitsToNat p1 * 3600 + digitsToNat p2 * 60 + digitsToNat r2 : ℕ) : ℚ)
      else none
    | _ =>
      if p1 ≠ [] ∧ p1.all Char.isDigit ∧ p2.length = 2 ∧ p2.all Char.isDigit then
        some ((digitsToNat p1 * 60 + digitsToNat p2 : ℕ) : ℚ)
      else none
  | _ => none

/-- The `num`/`unit` alternative of `Duration._PATTERN`:
`^(\d+(?:\.\d+)?)\s*(s|sec|min|h|hr|hour)$`.  Returns total seconds. -/
def parseNumUnit (l : List Char) : Option ℚ :=
  let ds := l.takeWhile Char.isDigit
  let r1 := l.dropWhile Char.isDigit
  if ds = [] then none
  else
    let t := r1.tail
    let hasFrac : Prop := r1.head? = some '.' ∧ t.takeWhile Char.isDigit ≠ []
    let fd := if hasFrac then t.takeWhile Char.isDigit else []
    let r2 := if hasFrac then t.dropWhile Char.isDigit else r1
    let r3 := r2.dropWhile Char.isWhitespace
    let v : ℚ := (digitsToNat ds : ℚ) + (digitsToNat fd : ℚ) / 10 ^ fd.length
    if r3 = ['s'] ∨ r3 = ['s', 'e', 'c'] then some v
    else if r3 = ['m', 'i', 'n'] then some (v * 60)
    else if r3 = ['h'] ∨ r3 = ['h', 'r'] ∨ r3 = ['h', 'o', 'u', 'r'] then
      some (v * 3600)
    else none

/-- One optional group `(?:(\d+)marker)?` of `Duration._COMPOUND`: digits
followed by the literal `marker`, consumed only when both are present. -/
def grabGroup (l : List Char) (marker : List Char) : Option ℕ × List Char :=
  let ds := l.takeWhile Char.isDigit
  let r := l.dropWhile Char.isDigit
  if ds ≠ [] ∧ listStartsWith marker r = true then
    (some (digitsToNat ds), r.drop marker.length)
  else (none, l)

/-- `Duration._COMPOUND`: `^(?:(\d+)h)?(?:(\d+)min)?(?:(\d+)s)?$`, used only
for a nonempty match; a match whose components are all zero falls through to
the `ValueError` (so: `none`). -/
def parseCompound (l : List Char) : Option ℚ :=
  let g1 := grabGroup l ['h']
  let g2 := grabGroup g1.2 ['m', 'i', 'n']
  let g3 := grabGroup g2.2 ['s']
  if g3.2 = [] ∧ (g1.1.isSome ∨ g2.1.isSome ∨ g3.1.isSome) then
    let h := g1.1.getD 0
    let m := g2.1.getD 0
    let s := g3.1.getD 0
    if h = 0 ∧ m = 0 ∧ s = 0 then none
    else some ((h * 3600 + m * 60 + s : ℕ) : ℚ)
  else none

/-- `Duration.parse` (units.py): `_PATTERN` alternatives in order, then the
compound format; a failure is the `ValueError`, i.e. `none`. -/
def durationParseChars (l : List Char) : Option ℚ :=
  match parseColon l with
  | some v => some v
  | none =>
    match parseNumUnit l with
    | some v => some v
    | none => parseCompound l

/-- `Duration.parse` on a string (the source first runs `text.strip()`). -/
def durationParse (s : String) : Option Duration :=
  (durationParseChars (pyStripChars s.data)).map Duration.mk

/-- `Duration.__str__` (units.py), line by line.  Python's
`x == int(x)` test is `x.den = 1` on rationals; `int(x)` on the nonnegative
values these branches receive is `pyTruncNat x`.  The float divisions
`s / 60` and `s / 3600` are modelled exactly here; `durStrF` below models
their binary64 rounding, which changes the output only for very large
seconds values (see the C10 counterexample). -/
def durStr (d : Duration) : String :=
  let s := d.seconds
  if s < 60 then numRepr s ++ "s"
  else if s < 3600 then
    let mins := s / 60
    if mins.den = 1 then intRepr mins.num ++ "min"
    else
      let mPart := pyTruncNat s / 60
      let sPart := pyTruncNat s % 60
      if sPart ≠ 0 ∧ s.den = 1 then
        natRepr mPart ++ "min" ++ natRepr sPart ++ "s"
      else numRepr s ++ "s"
  else
    let hours := s / 3600
    if hours.den = 1 then intRepr hours.num ++ "h"
    else
      let hPart := pyTruncNat s / 3600
      let remainder := pyTruncNat s % 3600
      let mPart := remainder / 60
      let sPart := remainder % 60
      if s.den = 1 then
        natRepr hPart ++ "h" ++
          (if mPart ≠ 0 then natRepr mPart ++ "min" else "") ++
          (if sPart ≠ 0 then natRepr sPart ++ "s" else "")
      else
        let mins := s / 60
        if mins.den = 1 then intRepr mins.num ++ "min"
        else numRepr s ++ "s"

/-- `Duration.__str__` with its three float divisions (`s / 60` twice,
`s / 3600`) rounded to double precision as the Python runtime computes
them; everything else in the function (`int(s)`, `//`, `%`, comparisons
with integer literals) is exact in binary64. -/
def durStrF (d : Duration) : String :=
  let s := d.seconds
  if s < 60 then numRepr s ++ "s"
  else if s < 3600 then
    let mins := roundDouble (s / 60)
    if mins.den = 1 then intRepr mins.num ++ "min"
    else
      let mPart := pyTruncNat s / 60
      let sPart := pyTruncNat s % 60
      if sPart ≠ 0 ∧ s.den = 1 then
        natRepr mPart ++ "min" ++ natRepr sPart ++ "s"
      else numRepr s ++ "s"
  else
    let hours := roundDouble (s / 3600)
    if hours.den = 1 then intRepr hours.num ++ "h"
    else
      let hPart := pyTruncNat s / 3600
      let remainder := pyTruncNat s % 3600
      let mPart := remainder / 60
      let sPart := remainder % 60
      if s.den = 1 then
        natRepr hPart ++ "h" ++
          (if mPart ≠ 0 then natRepr mPart ++ "min" else "") ++
          (if sPart ≠ 0 then natRepr sPart ++ "s" else "")
      else
        let mins := roundDouble (s / 60)
        if mins.den = 1 then intRepr mins.num ++ "min"
        else numRepr s ++ "s"

/-- The `num`/`unit` alternative of `Duration.parse` with
`float(m.group("num"))` and the unit multiplications `num * 60`,
`num * 3600` rounded to double precision. -/
def parseNumUnitF (l : List Char) : Option ℚ :=
  let ds := l.takeWhile Char.isDigit
  let r1 := l.dropWhile Char.isDigit
  if ds = [] then none
  else
    let t := r1.tail
    let hasFrac : Prop := r1.head? = some '.' ∧ t.takeWhile Char.isDigit ≠ []
    let fd := if hasFrac then t.takeWhile Char.isDigit else []
    let r2 := if hasFrac then t.dropWhile Char.isDigit else r1
    let r3 := r2.dropWhile Char.isWhitespace
    let v : ℚ :=
      roundDouble ((digitsToNat ds : ℚ) + (digitsToNat fd : ℚ) / 10 ^ fd.length)
    if r3 = ['s'] ∨ r3 = ['s', 'e', 'c'] then some v
    else if r3 = ['m', 'i', 'n'] then some (roundDouble (v * 60))
    else if r3 = ['h'] ∨ r3 = ['h', 'r'] ∨ r3 = ['h', 'o', 'u', 'r'] then
      some (roundDouble (v * 3600))
    else none

/-- `Duration.parse` with double rounding in the `num`/`unit` alternative.
The colon and compound alternatives use Python integer arithmetic, which
is exact, so `parseColon` and `parseCompound` are shared with the exact
model. -/
def durationParseCharsF (l : List Char) : Option ℚ :=
  match parseColon l with
  | some v => some v
  | none =>
    match parseNumUnitF l with
    | some v => some v
    | none => parseCompound l

/-- `Duration.parse` on a string, rounding-faithful variant. -/
def durationParseF (s : String) : Option Duration :=
  (durationParseCharsF (pyStripChars s.data)).map Duration.mk

/-- `Distance` (units.py): value + unit. -/
structure Distance where
  value : ℚ
  unit : String
  deriving DecidableEq, Repr

/-- `Distance.__str__`. -/
def distStr (d : Distance) : String := numRepr d.value ++ d.unit

/-- `Pace` (units.py): `4:30/km`. -/
structure Pace where
  minutes : ℕ
  seconds : ℕ
  unit : String
  deriving DecidableEq, Repr

/-- `Pace.parse`: `^(\d+):(\d{2})/(km|mi|mile)$`. -/
def paceParse (s : String) : Option Pace :=
  let l := pyStripChars s.data
  let p1 := l.takeWhile (· ≠ ':')
  match l.dropWhile (· ≠ ':') with
  | ':' :: r1 =>
    let p2 := r1.takeWhile (· ≠ '/')
    match r1.dropWhile (· ≠ '/') with
    | '/' :: r2 =>
      if p1 ≠ [] ∧ p1.all Char.isDigit ∧ p2.length = 2 ∧ p2.all Char.isDigit ∧
          (r2 = ['k', 'm'] ∨ r2 = ['m', 'i'] ∨ r2 = ['m', 'i', 'l', 'e']) then
        some ⟨digitsToNat p1, digitsToNat p2, String.mk r2⟩
      else none
    | _ => none
  | _ => none

/-- `Pace.__str__`: `f"{minutes}:{seconds:02d}/{unit}"`. -/
def paceStr (p : Pace) : String :=
  natRepr p.minutes ++ ":" ++
    (if p.seconds < 10 then "0" ++ natRepr p.seconds else natRepr p.seconds) ++
    "/" ++ p.unit

/-! ## `owf/ast/expressions.py` and `owf/ast/params.py`

`Expression = Literal | VarRef | Percentage | BinOp`.  `BinOp.op` is a plain
Python string in the source, so it stays a `String` here.

`ast/params.py` defines `Param = PaceParam | PowerParam | HeartRateParam |
WeightParam | RPEParam | IntensityParam` — there is **no** `RIRParam`
dataclass in the file (even though other modules try to import one). -/

/-- Expression AST (`ast/expressions.py`), `span` fields (compare=False)
omitted. -/
inductive Expression where
  | literal (value : ℚ) (unit : Option String)
  | varRef (name : String)
  | percentage (percent : ℚ) (of : Expression)
  | binOp (op : String) (left : Expression) (right : Expression)
  deriving DecidableEq, Repr

/-- `HeartRateParam.value`: `Expression | str` (zone names like `"Z2"`). -/
inductive HRValue where
  | zone (name : String)
  | expr (e : Expression)
  deriving DecidableEq, Repr

/-- Parameter AST (`ast/params.py`).  The file defines exactly these six
variants; in particular it defines no `RIRParam`. -/
inductive Param where
  | pace (p : Pace)
  | power (value : Expression)
  | heartRate (value : HRValue)
  | weight (value : Expression)
  | rpe (value : ℚ)
  | intensity (name : String)
  deriving DecidableEq, Repr

/-- `StrengthStep.reps`: `int | str` (`"max"` sentinel). -/
inductive Reps where
  | num (n : ℕ)
  | maxReps
  deriving DecidableEq, Repr

/-- `WorkoutDate` (ast/base.py). -/
structure WorkoutDate where
  date : String
  startTime : Option String
  endTime : Option String
  deriving DecidableEq, Repr

/-! ## `owf/ast/steps.py`, `owf/ast/blocks.py`, `owf/ast/base.py`

A workout's `steps` tuple may hold leaf steps, block steps, or (in session
mode) nested `Workout` values, so `Step` and `Workout` are mutually
inductive.  `Workout` (ast/base.py) declares exactly the fields
`name`, `workout_type`, `date`, `steps`, `notes`, `span` — it has **no**
`rpe`/`rir` fields.  `Document` declares `workouts`, `metadata`, `span` —
it has **no** `variables` attribute.  `span` fields are compare=False and
omitted. -/

mutual

/-- Leaf and block steps (`ast/steps.py`, `ast/blocks.py`). -/
inductive Step where
  | endurance (action : String) (duration : Option Duration)
      (distance : Option Distance) (params : List Param) (notes : List String)
  | strength (exercise : String) (sets : Option ℕ) (reps : Option Reps)
      (duration : Option Duration) (params : List Param)
      (rest : Option Duration) (notes : List String)
  | restStep (duration : Duration) (notes : List String)
  | repeatStep (count : ℕ) (steps : List Step) (notes : List String)
  | superset (count : ℕ) (steps : List Step) (notes : List String)
  | circuit (count : ℕ) (steps : List Step) (notes : List String)
  | emom (duration : Duration) (steps : List Step) (notes : List String)
  | altEmom (duration : Duration) (steps : List Step) (notes : List String)
  | customInterval (interval : Duration) (duration : Duration)
      (steps : List Step) (notes : List String)
  | amrap (duration : Duration) (steps : List Step) (notes : List String)
  | forTime (timeCap : Option Duration) (steps : List Step)
      (notes : List String)
  | nested (w : Workout)

/-- `Workout` (ast/base.py): name, workout_type, date, steps, notes. -/
inductive Workout where
  | mk (name : String) (workoutType : Option String)
      (date : Option WorkoutDate) (steps : List Step) (notes : List String)

end

/-- `Document` (ast/base.py): workouts + frontmatter metadata.  The field is
named `metadata`; the dataclass is `slots=True`, so no other attribute
(in particular no `variables`) exists on instances. -/
structure Document where
  workouts : List Workout
  metadata : List (String × String)

/-! ## `owf/parser/scanner.py` -/

/-- `LineType` (scanner.py).  The enum defines exactly these five members:
`BLANK`, `FRONTMATTER_FENCE`, `HEADING`, `STEP`, `NOTE` — there is no
`SESSION_HEADING` member. -/
inductive LineType where
  | blank
  | frontmatterFence
  | heading
  | step
  | note
  deriving DecidableEq, Repr

/-- `LogicalLine` (scanner.py).  `span` is used algorithmically (the note
attacher matches on `span.line`), so the position fields are kept. -/
structure LogicalLine where
  lineType : LineType
  text : String
  indent : ℕ
  content : String
  line : ℕ
  col : ℕ
  deriving DecidableEq, Repr

/-- The per-line classification in `scan` (scanner.py lines 33–113). -/
def classifyLine (lineno : ℕ) (raw : String) : LogicalLine :=
  let stripped := pyRStrip raw
  if stripped = "" then
    ⟨.blank, raw, 0, "", lineno, 1⟩
  else if stripped = "---" then
    ⟨.frontmatterFence, raw, 0, "---", lineno, 1⟩
  else if strStartsWith stripped "# " then
    ⟨.heading, raw, 0, strDrop stripped 2, lineno, 1⟩
  else if strStartsWith stripped "> " then
    ⟨.note, raw, 0, strDrop stripped 2, lineno, 1⟩
  else if stripped = ">" then
    ⟨.note, raw, 0, "", lineno, 1⟩
  else
    let indent := raw.data.length - (raw.data.dropWhile (· = ' ')).length
    let inner := pyLStrip stripped
    if strStartsWith inner "- " then
      ⟨.step, raw, indent, strDrop inner 2, lineno, indent + 1⟩
    else if inner = "-" then
      ⟨.step, raw, indent, "", lineno, indent + 1⟩
    else
      -- Unclassifiable non-blank content degrades to BLANK (content kept).
      ⟨.blank, raw, 0, stripped, lineno, 1⟩

/-- `scan` (scanner.py): classify every line, 1-based line numbers. -/
def scan (text : String) : List LogicalLine :=
  (splitLines text).enum.map (fun p => classifyLine (p.1 + 1) p.2)

/-! ## `owf/parser/block_builder.py` -/

/-- `RawBlock`: a step line with its children and attached notes. -/
inductive RawBlock where
  | mk (line : LogicalLine) (children : List RawBlock) (notes : List String)
  deriving Repr

/-- The step line of a raw block. -/
def RawBlock.line : RawBlock → LogicalLine
  | .mk l _ _ => l

/-- The children of a raw block. -/
def RawBlock.children : RawBlock → List RawBlock
  | .mk _ c _ => c

/-- The notes of a raw block. -/
def RawBlock.notes : RawBlock → List String
  | .mk _ _ n => n

/-- `_min_indent`: `min` of the indents, `0` for an empty list. -/
def minIndent (ls : List LogicalLine) : ℕ :=
  match ls with
  | [] => 0
  | l :: t => (t.map (·.indent)).foldl min l.indent

/-- `_build_tree` (block_builder.py): recursively partition a run of step
lines by the current base indentation; lines indented deeper than the head
become its children.  Fuel-based (`length + 1` suffices: every iteration
consumes at least the head line). -/
def buildTreeFuel : ℕ → List LogicalLine → ℕ → List RawBlock
  | 0, _, _ => []
  | _ + 1, [], _ => []
  | fuel + 1, ln :: rest, base =>
    if ln.indent = base then
      let childLines := rest.takeWhile (fun l => base < l.indent)
      let remaining := rest.drop childLines.length
      let children := buildTreeFuel fuel childLines (minIndent childLines)
      .mk ln children [] :: buildTreeFuel fuel remaining base
    else
      -- skip lines with unexpected indentation
      buildTreeFuel fuel rest base

/-- `_build_tree` entry point. -/
def buildTree (ls : List LogicalLine) (base : ℕ) : List RawBlock :=
  buildTreeFuel (ls.length + 1) ls base

/-- The note-assignment pass of `_attach_notes`: walk the lines tracking the
most recent step line; each note line is destined for that step's source line
number (Python keeps `block_by_line.get(line)`, which drops the note when the
step line was not registered in the tree — reproduced below by attaching only
to blocks whose line number matches). -/
def noteAssigns (ls : List LogicalLine) : List (ℕ × String) :=
  (ls.foldl
    (fun (acc : List (ℕ × String) × Option ℕ) ln =>
      match ln.lineType with
      | .step => (acc.1, some ln.line)
      | .note =>
        match acc.2 with
        | some n => ((n, ln.content) :: acc.1, acc.2)
        | none => acc
      | _ => acc)
    ([], none)).1.reverse

mutual

/-- Attach the assigned notes to the block with the matching line number
(recursively, as `_register` indexes the whole tree). -/
def attachTo (assigns : List (ℕ × String)) : RawBlock → RawBlock
  | .mk line children notes =>
    .mk line (attachToList assigns children)
      (notes ++ (assigns.filter (fun a => a.1 = line.line)).map (·.2))

/-- `attachTo` over a list of blocks. -/
def attachToList (assigns : List (ℕ × String)) : List RawBlock → List RawBlock
  | [] => []
  | b :: t => attachTo assigns b :: attachToList assigns t

end

/-- The boundary search of `build_blocks_for_workout`: scanning the lines
after the last step line, the first NOTE line that follows at least one BLANK
line starts the workout-level trailing notes. -/
def findBoundary : List (ℕ × LogicalLine) → Bool → Option ℕ
  | [], _ => none
  | (i, ln) :: t, sawBlank =>
    match ln.lineType with
    | .blank => findBoundary t true
    | .note => if sawBlank then some i else findBoundary t sawBlank
    | _ => findBoundary t sawBlank

/-- `build_blocks_for_workout` (block_builder.py lines 41–94): build the
indentation tree from the step lines, split the post-last-step tail into
step-level and workout-level notes at `attach_boundary`, and attach the
step-level ones. -/
def buildBlocksForWorkout (ls : List LogicalLine) :
    List RawBlock × List String :=
  let stepLines := ls.filter (fun l => l.lineType = .step)
  if stepLines = [] then
    ([], (ls.filter (fun l => l.lineType = .note)).map (·.content))
  else
    let lastStepIdx :=
      ((ls.enum.filter (fun p => p.2.lineType = .step)).map (·.1)).foldl max 0
    let attachBoundary :=
      (findBoundary (ls.enum.drop (lastStepIdx + 1)) false).getD ls.length
    let trailingNotes :=
      ((ls.enum.filter
          (fun p => attachBoundary ≤ p.1 ∧ p.2.lineType = .note)).map
        (·.2.content))
    let blocks := buildTree stepLines (minIndent stepLines)
    let assigns := noteAssigns (ls.take attachBoundary)
    (attachToList assigns blocks, trailingNotes)

/-! ## `owf/parser/frontmatter.py` -/

/-- Find the opening `---` fence: the first line whose `strip()` is `---`,
provided no earlier line is non-blank (otherwise: no frontmatter). -/
def findOpenFence : ℕ → List String → Option ℕ
  | _, [] => none
  | i, l :: t =>
    let s := pyStrip l
    if s = "---" then some i
    else if s ≠ "" then none
    else findOpenFence (i + 1) t

/-- Find the closing `---` fence at or after index `i`. -/
def findCloseFence : ℕ → List String → Option ℕ
  | _, [] => none
  | i, l :: t => if pyStrip l = "---" then some i else findCloseFence (i + 1) t

/-- The `key: value` match `^(.+?):\s*(.+)$` on a stripped line: the first
`:` at index ≥ 1 with a nonempty remainder splits key from value (both
stripped). -/
def splitKV : List Char → List Char → Option (String × String)
  | _, [] => none
  | acc, c :: rest =>
    if c = ':' ∧ acc ≠ [] ∧ rest ≠ [] then
      some (String.mk (pyStripChars acc.reverse), String.mk (pyStripChars rest))
    else splitKV (c :: acc) rest

/-- Python-dict assignment `d[k] = v`: replace in place, else append. -/
def updateAssoc (l : List (String × String)) (k v : String) :
    List (String × String) :=
  if l.any (fun p => p.1 = k) then
    l.map (fun p => if p.1 = k then (k, v) else p)
  else l ++ [(k, v)]

/-- The key/value loop of `parse_frontmatter`. -/
def parseKVs : List String → List (String × String) →
    Except PyErr (List (String × String))
  | [], acc => .ok acc
  | l :: t, acc =>
    let s := pyStrip l
    if s = "" then parseKVs t acc
    else
      match splitKV [] s.data with
      | some (k, v) => parseKVs t (updateAssoc acc k v)
      | none => .error (.parseError ("Invalid frontmatter line: " ++ s))

/-- `parse_frontmatter` (frontmatter.py). -/
def parse_frontmatter (text : String) :
    Except PyErr (List (String × String) × String) :=
  let lines := splitLines text
  match findOpenFence 0 lines with
  | none => .ok ([], text)
  | some start =>
    match findCloseFence (start + 1) (lines.drop (start + 1)) with
    | none => .error (.parseError "Unclosed frontmatter: missing closing '---'")
    | some stop =>
      let body := (lines.drop (start + 1)).take (stop - (start + 1))
      match parseKVs body [] with
      | .error e => .error e
      | .ok vars => .ok (vars, joinWith "\n" (lines.drop (stop + 1)))

/-! ## `owf/parser/step_parser.py` — document assembly -/

/-- `_split_into_workouts` (step_parser.py lines 71–90).  Its first statement
evaluates `any(ln.line_type == LineType.SESSION_HEADING for ln in lines)`.
The `LineType` enum (scanner.py) defines only `BLANK`, `FRONTMATTER_FENCE`,
`HEADING`, `STEP` and `NOTE`, so the attribute access
`LineType.SESSION_HEADING` raises `AttributeError` as soon as the generator
yields its first element; only an empty line list (never produced by `scan`)
avoids the access, in which case `_split_flat([])` returns `[]`. -/
def split_into_workouts (lines : List LogicalLine) :
    Except PyErr (List Workout) :=
  match lines with
  | [] => .ok []
  | _ :: _ => .error (.attributeError "LineType" "SESSION_HEADING")

/-- `parse_document` (step_parser.py lines 53–68): frontmatter, scan,
split into workouts, assemble the `Document`. -/
def parse_document (text : String) : Except PyErr Document := do
  let fm ← parse_frontmatter text
  let lines := scan fm.2
  let workouts ← split_into_workouts lines
  .ok ⟨workouts, fm.1⟩

/-! ## `owf/parser/expr_parser.py` -/

/-- Leading `\d+(?:\.\d+)?` of a char list: the number (as `ℚ`) and the rest,
or `none` when there is no leading digit. -/
def takeNumber (l : List Char) : Option (ℚ × List Char) :=
  let ds := l.takeWhile Char.isDigit
  let r1 := l.dropWhile Char.isDigit
  if ds = [] then none
  else
    let t := r1.tail
    let hasFrac : Prop := r1.head? = some '.' ∧ t.takeWhile Char.isDigit ≠ []
    let fd := if hasFrac then t.takeWhile Char.isDigit else []
    let r2 := if hasFrac then t.dropWhile Char.isDigit else r1
    some ((digitsToNat ds : ℚ) + (digitsToNat fd : ℚ) / 10 ^ fd.length, r2)

/-- `^(\d+(?:\.\d+)?)%\s+of\s+(.+)$`: percent value and the raw remainder
(the source re-parses the remainder, which strips it itself). -/
def matchPercentOf (l : List Char) : Option (ℚ × List Char) :=
  match takeNumber l with
  | none => none
  | some (v, r) =>
    match r with
    | '%' :: r1 =>
      let ws1 := r1.takeWhile Char.isWhitespace
      let r2 := r1.dropWhile Char.isWhitespace
      if ws1 = [] then none
      else if listStartsWith ['o', 'f'] r2 then
        let r3 := (r2.drop 2).dropWhile Char.isWhitespace
        if (r2.drop 2).takeWhile Char.isWhitespace = [] then none
        else if r3 = [] then none
        else some (v, r3)
      else none
    | _ => none

/-- The lazy-left match `^(.+?)\s*([+-])\s*(.+)$`: the first `+`/`-` preceded
by at least one non-whitespace character (skipping the adjacent whitespace
run) and followed by a nonempty remainder.  Returns (left before the
whitespace run, operator, remainder). -/
def findBinOp : List Char → List Char → Option (List Char × Char × List Char)
  | _, [] => none
  | acc, c :: rest =>
    if (c = '+' ∨ c = '-') ∧ acc ≠ [] ∧ rest ≠ [] ∧
        acc.dropWhile Char.isWhitespace ≠ [] then
      some ((acc.dropWhile Char.isWhitespace).reverse, c, rest)
    else findBinOp (c :: acc) rest

/-- `^(\d+(?:\.\d+)?)\s*(W|kg|lb|lbs|bpm|in|m|km|mi|cal|kcal)$`. -/
def matchLiteralUnit (l : List Char) : Option (ℚ × String) :=
  match takeNumber l with
  | none => none
  | some (v, r) =>
    let r2 := r.dropWhile Char.isWhitespace
    if r2 = ['W'] ∨ r2 = ['k', 'g'] ∨ r2 = ['l', 'b'] ∨
        r2 = ['l', 'b', 's'] ∨ r2 = ['b', 'p', 'm'] ∨ r2 = ['i', 'n'] ∨
        r2 = ['m'] ∨ r2 = ['k', 'm'] ∨ r2 = ['m', 'i'] ∨
        r2 = ['c', 'a', 'l'] ∨ r2 = ['k', 'c', 'a', 'l'] then
      some (v, String.mk r2)
    else none

/-- `^\d+(?:\.\d+)?$`: a bare number. -/
def matchBareNumber (l : List Char) : Option ℚ :=
  match takeNumber l with
  | some (v, []) => some v
  | _ => none

/-- `^(\d+(?:\.\d+)?)%$`: a bare percentage. -/
def matchBarePct (l : List Char) : Option ℚ :=
  match takeNumber l with
  | some (v, ['%']) => some v
  | _ => none

/-- The non-recursive tail of `parse_expression`: literal-with-unit, bare
number, bare percentage, else `VarRef` of the whole (stripped) text. -/
def exprTail (t : String) : Expression :=
  match matchLiteralUnit t.data with
  | some (v, u) => .literal v (some u)
  | none =>
    match matchBareNumber t.data with
    | some v => .literal v none
    | none =>
      match matchBarePct t.data with
      | some v => .literal v (some "%")
      | none => .varRef t

/-- `parse_expression` (expr_parser.py), fuel-based (each recursive call is
on a strictly shorter string; `length + 1` fuel always suffices).  The only
exception it raises is the `ValueError` on empty input; a failed binop
side-parse is caught and falls through to the tail classifiers. -/
def parseExpressionFuel : ℕ → String → Except PyErr Expression
  | 0, _ => .error (.valueError "out of fuel")
  | fuel + 1, text =>
    let t := pyStrip text
    if t = "" then .error (.valueError "Empty expression")
    else
      match matchPercentOf t.data with
      | some (pct, restChars) => do
        let inner ← parseExpressionFuel fuel (String.mk restChars)
        .ok (.percentage pct inner)
      | none =>
        match findBinOp [] t.data with
        | some (leftChars, opChar, rightChars) =>
          let leftStr := String.mk (pyStripChars leftChars)
          let rightStr := String.mk (pyStripChars rightChars)
          match parseExpressionFuel fuel leftStr,
              parseExpressionFuel fuel rightStr with
          | .ok le, .ok re => .ok (.binOp (String.mk [opChar]) le re)
          | _, _ => .ok (exprTail t)
        | none => .ok (exprTail t)

/-- `parse_expression` entry point. -/
def parse_expression (text : String) : Except PyErr Expression :=
  parseExpressionFuel (strLen text + 1) text

/-! ## `owf/parser/param_parser.py` -/

/-- `INTENSITY_NAMES`. -/
def intensityNames : List String :=
  ["easy", "moderate", "hard", "max", "threshold", "tempo"]

/-- `REST_PATTERN.match(token)`: `rest:(\d+(?:\.\d+)?(s|sec|min|h|hr|hour))`
as a prefix match — the unit alternatives are tried in order and matched as
prefixes (so `rest:90sec` captures `90s`), trailing junk is ignored.
Returns the captured group. -/
def matchRestToken (tok : String) : Option String :=
  let l := tok.data
  if listStartsWith ['r', 'e', 's', 't', ':'] l then
    let body := l.drop 5
    match takeNumber body with
    | none => none
    | some (_, r) =>
      let numChars := body.take (body.length - r.length)
      match ["s", "sec", "min", "h", "hr", "hour"].find?
          (fun u => listStartsWith u.data r) with
      | some u => some (String.mk (numChars ++ u.data))
      | none => none
  else none

/-- `^Z\d$` (case-sensitive): heart-rate zone token. -/
def isZoneToken (value : String) : Bool :=
  match value.data with
  | ['Z', c] => c.isDigit
  | _ => false

/-- `^(\d+)bpm$`. -/
def matchBpm (value : String) : Option ℚ :=
  let ds := value.data.takeWhile Char.isDigit
  let r := value.data.dropWhile Char.isDigit
  if ds ≠ [] ∧ r = ['b', 'p', 'm'] then some (digitsToNat ds : ℚ) else none

/-- `_classify_expression` (param_parser.py lines 132–166): route a parsed
expression to a `Param` by unit or, for percentages of a variable, by
keyword heuristics on the variable name. -/
def classifyExpression (expr : Expression) : Param :=
  match expr with
  | .literal _ u =>
    match u with
    | some "W" => .power expr
    | some "kg" => .weight expr
    | some "lb" => .weight expr
    | some "lbs" => .weight expr
    | some "bpm" => .heartRate (.expr expr)
    | some "in" => .weight expr
    | _ => .power expr
  | .percentage _ inner =>
    match inner with
    | .varRef nm =>
      let nl := strToLower nm
      if strContains nl "hr" ∨ strContains nl "heart" then
        .heartRate (.expr expr)
      else if strContains nl "rm" ∨ strContains (removeSpaces nl) "1rm" then
        .weight expr
      else .power expr
    | _ => .power expr
  | .varRef _ => .power expr
  | .binOp _ _ _ => .power expr

/-- The token loop of `parse_params` (param_parser.py lines 27–129),
fuel-based (each iteration consumes at least one token).  `acc` collects
parameters in reverse; `rd` is the latest `rest:` duration. -/
def parseParamsFuel : ℕ → List String → List Param → Option Duration →
    Except PyErr (List Param × Option Duration)
  | 0, _, acc, rd => .ok (acc.reverse, rd)
  | _ + 1, [], acc, rd => .ok (acc.reverse, rd)
  | fuel + 1, tok :: rest, acc, rd =>
    match matchRestToken tok with
    | some ds =>
      match durationParse ds with
      | some d => parseParamsFuel fuel rest acc (some d)
      | none => .error (.valueError ("Cannot parse duration: " ++ ds))
    | none =>
      if ¬ strStartsWith tok "@" then parseParamsFuel fuel rest acc rd
      else
        let value := strDrop tok 1
        match (if strStartsWith value "pace:" then paceParse (strDrop value 5)
               else none) with
        | some p => parseParamsFuel fuel rest (.pace p :: acc) rd
        | none =>
          match paceParse value with
          | some p => parseParamsFuel fuel rest (.pace p :: acc) rd
          | none =>
            if strStartsWith (strToUpper value) "RPE" then
              let rpeVal := pyStrip (strDrop value 3)
              if rpeVal ≠ "" then
                match pyFloat rpeVal with
                | some v => parseParamsFuel fuel rest (.rpe v :: acc) rd
                | none =>
                  .error (.valueError "could not convert string to float")
              else
                match rest with
                | nxt :: rest2 =>
                  match pyFloat nxt with
                  | some v => parseParamsFuel fuel rest2 (.rpe v :: acc) rd
                  | none => parseParamsFuel fuel rest acc rd
                | [] => parseParamsFuel fuel rest acc rd
            else if isZoneToken value then
              parseParamsFuel fuel rest (.heartRate (.zone value) :: acc) rd
            else
              match matchBpm value with
              | some n =>
                parseParamsFuel fuel rest
                  (.heartRate (.expr (.literal n (some "bpm"))) :: acc) rd
              | none =>
                if strToLower value ∈ intensityNames then
                  parseParamsFuel fuel rest (.intensity (strToLower value) :: acc) rd
                else
                  let more := rest.takeWhile
                    (fun t => ¬ strStartsWith t "@" ∧ (matchRestToken t).isNone)
                  let exprStr := joinWith " " (value :: more)
                  match parse_expression exprStr with
                  | .error e => .error e
                  | .ok expr =>
                    parseParamsFuel fuel (rest.drop more.length)
                      (classifyExpression expr :: acc) rd

/-- `parse_params`: parse a step's token tail into parameters and an optional
rest duration. -/
def parse_params (tokens : List String) :
    Except PyErr (List Param × Option Duration) :=
  parseParamsFuel (tokens.length + 1) tokens [] none

/-! ## `owf/resolver.py` -/

/-- Dict lookup in the merged variable mapping (keys unique). -/
def lookupVar (vars : List (String × String)) (n : String) : Option String :=
  (vars.find? (fun p => p.1 = n)).map (·.2)

/-- `_parse_variable_value` (resolver.py lines 121–130): re-parse a variable's
string value; `^(\d+(?:\.\d+)?)\s*(W|kg|lb|lbs|bpm|in|m|km)$`, else a bare
`float(...)`, else `ResolveError`. -/
def parse_variable_value (val : String) : Except PyErr Expression :=
  let matched : Option (ℚ × String) :=
    match takeNumber val.data with
    | none => none
    | some (v, r) =>
      let r2 := r.dropWhile Char.isWhitespace
      if r2 = ['W'] ∨ r2 = ['k', 'g'] ∨ r2 = ['l', 'b'] ∨
          r2 = ['l', 'b', 's'] ∨ r2 = ['b', 'p', 'm'] ∨ r2 = ['i', 'n'] ∨
          r2 = ['m'] ∨ r2 = ['k', 'm'] then
        some (v, String.mk r2)
      else none
  match matched with
  | some (v, u) => .ok (.literal v (some u))
  | none =>
    match pyFloat val with
    | some v => .ok (.literal v none)
    | none => .error (.resolveError ("Cannot parse variable value: " ++ val))

/-- Python's `left.unit or right.unit`: the left unit unless it is falsy
(`None` or `""`). -/
def pyOrUnit (l r : Option String) : Option String :=
  match l with
  | some s => if s = "" then r else some s
  | none => r

/-- `_resolve_expression` (resolver.py lines 84–118). -/
def resolve_expression (vars : List (String × String)) :
    Expression → Except PyErr Expression
  | .literal v u => .ok (.literal v u)
  | .varRef n =>
    match lookupVar vars n with
    | none => .error (.resolveError ("Undefined variable: " ++ n))
    | some val => parse_variable_value val
  | .percentage pct inner =>
    match resolve_expression vars inner with
    | .error e => .error e
    | .ok r =>
      match r with
      | .literal v u => .ok (.literal (pct / 100 * v) u)
      | r' => .ok (.percentage pct r')
  | .binOp op l r =>
    match resolve_expression vars l with
    | .error e => .error e
    | .ok l' =>
      match resolve_expression vars r with
      | .error e => .error e
      | .ok r' =>
        match l', r' with
        | .literal vl ul, .literal vr ur =>
          if op = "+" then .ok (.literal (vl + vr) (pyOrUnit ul ur))
          else if op = "-" then .ok (.literal (vl - vr) (pyOrUnit ul ur))
          else .error (.resolveError ("Unknown operator: " ++ op))
        | _, _ => .ok (.binOp op l' r')

/-- `_resolve_param` (resolver.py lines 76–81): `PowerParam`, `WeightParam`
and `HeartRateParam` carrying an `Expression` get it resolved; everything
else is returned unchanged. -/
def resolve_param (vars : List (String × String)) :
    Param → Except PyErr Param
  | .power e => do
    let e' ← resolve_expression vars e
    .ok (.power e')
  | .weight e => do
    let e' ← resolve_expression vars e
    .ok (.weight e')
  | .heartRate (.expr e) => do
    let e' ← resolve_expression vars e
    .ok (.heartRate (.expr e'))
  | p => .ok p

/-- `resolve_param` over a parameter tuple (left to right, first exception
propagates). -/
def resolveParams (vars : List (String × String)) :
    List Param → Except PyErr (List Param)
  | [] => .ok []
  | p :: t => do
    let p' ← resolve_param vars p
    let t' ← resolveParams vars t
    .ok (p' :: t')

mutual

/-- `_resolve_step` (resolver.py lines 53–73).  The `isinstance` chain covers
`Workout`, `EnduranceStep`, `StrengthStep`, `(RepeatStep, Superset)` and
`(EMOM, AlternatingEMOM, AMRAP, ForTime, CustomInterval)`; **`Circuit` is in
none of the tuples** (the resolver does not even import it), so a circuit —
like a `RestStep` — falls through to the final `return step`, its children
untouched. -/
def resolve_step (vars : List (String × String)) :
    Step → Except PyErr Step
  | .nested w => do
    let w' ← resolve_workout vars w
    .ok (.nested w')
  | .endurance a du di ps ns => do
    let ps' ← resolveParams vars ps
    .ok (.endurance a du di ps' ns)
  | .strength e st rp du ps rst ns => do
    let ps' ← resolveParams vars ps
    .ok (.strength e st rp du ps' rst ns)
  | .repeatStep c ss ns => do
    let ss' ← resolveSteps vars ss
    .ok (.repeatStep c ss' ns)
  | .superset c ss ns => do
    let ss' ← resolveSteps vars ss
    .ok (.superset c ss' ns)
  | .emom d ss ns => do
    let ss' ← resolveSteps vars ss
    .ok (.emom d ss' ns)
  | .altEmom d ss ns => do
    let ss' ← resolveSteps vars ss
    .ok (.altEmom d ss' ns)
  | .amrap d ss ns => do
    let ss' ← resolveSteps vars ss
    .ok (.amrap d ss' ns)
  | .forTime c ss ns => do
    let ss' ← resolveSteps vars ss
    .ok (.forTime c ss' ns)
  | .customInterval i d ss ns => do
    let ss' ← resolveSteps vars ss
    .ok (.customInterval i d ss' ns)
  | .circuit c ss ns => .ok (.circuit c ss ns)
  | .restStep d ns => .ok (.restStep d ns)

/-- `resolve_step` over a step tuple. -/
def resolveSteps (vars : List (String × String)) :
    List Step → Except PyErr (List Step)
  | [] => .ok []
  | s :: t => do
    let s' ← resolve_step vars s
    let t' ← resolveSteps vars t
    .ok (s' :: t')

/-- `_resolve_workout` (resolver.py lines 48–50). -/
def resolve_workout (vars : List (String × String)) :
    Workout → Except PyErr Workout
  | .mk n ty dt ss ns => do
    let ss' ← resolveSteps vars ss
    .ok (.mk n ty dt ss' ns)

end

/-- `resolve` (resolver.py lines 33–45).  Its first statement is
`variables = dict(doc.variables)`, but `Document` (ast/base.py, `slots=True`)
defines only the attributes `workouts`, `metadata` and `span`; reading
`doc.variables` therefore raises `AttributeError` before any merging or
resolution happens, on every document and every extra mapping. -/
def resolve (_doc : Document) (_extra : List (String × String)) :
    Except PyErr Document :=
  .error (.attributeError "Document" "variables")

/-! ## `owf/serializer.py` -/

/-- `_serialize_expression` (serializer.py lines 232–252). -/
def serialize_expression : Expression → String
  | .literal v u =>
    match u with
    | some s => if s = "" then numRepr v else numRepr v ++ s
    | none => numRepr v
  | .varRef n => n
  | .percentage p of => numRepr p ++ "% of " ++ serialize_expression of
  | .binOp op l r =>
    serialize_expression l ++ " " ++ op ++ " " ++ serialize_expression r

/-- `_serialize_param` (serializer.py lines 203–229).  The source also has an
`isinstance(param, RIRParam)` branch, but `ast/params.py` defines no
`RIRParam` class (the module's import of it is what breaks the serializer);
the `Param` sum has no such variant to dispatch on. -/
def serialize_param : Param → String
  | .pace p => "@" ++ paceStr p
  | .intensity n => "@" ++ n
  | .rpe v => "@RPE " ++ numRepr v
  | .heartRate (.zone s) => "@" ++ s
  | .heartRate (.expr e) => "@" ++ serialize_expression e
  | .power e => "@" ++ serialize_expression e
  | .weight e => "@" ++ serialize_expression e

/-- `"  " * indent`. -/
def indentPrefix (n : ℕ) : String := String.mk (List.replicate (2 * n) ' ')

/-- Render `reps`. -/
def repsStr : Reps → String
  | .num n => natRepr n
  | .maxReps => "max"

mutual

/-- `_serialize_node` (serializer.py lines 110–200): one `- ` line per step,
children indented two more spaces, notes as `> ` lines.  A nested `Workout`
value matches none of the `isinstance` branches and yields no lines. -/
def serialize_node (indent : ℕ) : Step → List String
  | .endurance a du di ps ns =>
    let parts := [a] ++ (match du with | some d => [durStr d] | none => []) ++
      (match di with | some d => [distStr d] | none => []) ++
      ps.map serialize_param
    (indentPrefix indent ++ "- " ++ String.intercalate " " parts) ::
      ns.map (fun n => indentPrefix indent ++ "> " ++ n)
  | .strength e st rp du ps rst ns =>
    let srPart :=
      match st, rp with
      | some s, some r => [natRepr s ++ "x" ++ repsStr r ++ "rep"]
      | none, some r => [repsStr r ++ "rep"]
      | _, none => []
    let parts := [e] ++ srPart ++
      (match du with | some d => [durStr d] | none => []) ++
      ps.map serialize_param ++
      (match rst with | some d => ["rest:" ++ durStr d] | none => [])
    (indentPrefix indent ++ "- " ++ String.intercalate " " parts) ::
      ns.map (fun n => indentPrefix indent ++ "> " ++ n)
  | .restStep d ns =>
    (indentPrefix indent ++ "- rest " ++ durStr d) ::
      ns.map (fun n => indentPrefix indent ++ "> " ++ n)
  | .repeatStep c ss ns =>
    (indentPrefix indent ++ "- " ++ natRepr c ++ "x:") ::
      (serialize_nodes (indent + 1) ss ++
        ns.map (fun n => indentPrefix indent ++ "> " ++ n))
  | .superset c ss ns =>
    (indentPrefix indent ++ "- " ++ natRepr c ++ "x superset:") ::
      (serialize_nodes (indent + 1) ss ++
        ns.map (fun n => indentPrefix indent ++ "> " ++ n))
  | .circuit c ss ns =>
    (indentPrefix indent ++ "- " ++ natRepr c ++ "x circuit:") ::
      (serialize_nodes (indent + 1) ss ++
        ns.map (fun n => indentPrefix indent ++ "> " ++ n))
  | .emom d ss ns =>
    (indentPrefix indent ++ "- emom " ++ durStr d ++ ":") ::
      (serialize_nodes (indent + 1) ss ++
        ns.map (fun n => indentPrefix indent ++ "> " ++ n))
  | .altEmom d ss ns =>
    (indentPrefix indent ++ "- emom " ++ durStr d ++ " alternating:") ::
      (serialize_nodes (indent + 1) ss ++
        ns.map (fun n => indentPrefix indent ++ "> " ++ n))
  | .customInterval i d ss ns =>
    (indentPrefix indent ++ "- every " ++ durStr i ++ " for " ++ durStr d
        ++ ":") ::
      (serialize_nodes (indent + 1) ss ++
        ns.map (fun n => indentPrefix indent ++ "> " ++ n))
  | .amrap d ss ns =>
    (indentPrefix indent ++ "- amrap " ++ durStr d ++ ":") ::
      (serialize_nodes (indent + 1) ss ++
        ns.map (fun n => indentPrefix indent ++ "> " ++ n))
  | .forTime cap ss ns =>
    (match cap with
     | some d => indentPrefix indent ++ "- for-time " ++ durStr d ++ ":"
     | none => indentPrefix indent ++ "- for-time:") ::
      (serialize_nodes (indent + 1) ss ++
        ns.map (fun n => indentPrefix indent ++ "> " ++ n))
  | .nested _ => []

/-- `serialize_node` over a step tuple. -/
def serialize_nodes (indent : ℕ) : List Step → List String
  | [] => []
  | s :: t => serialize_node indent s ++ serialize_nodes indent t

end

/-- Does a step tuple contain a nested `Workout`? (`is_session` check). -/
def anyNested : List Step → Bool
  | [] => false
  | .nested _ :: _ => true
  | _ :: t => anyNested t

/-- `_serialize_child_workout` (serializer.py lines 89–107). -/
def serialize_child_workout : Workout → String
  | .mk name ty _ steps notes =>
    let headingLines : List String :=
      if name ≠ "" then
        [(match ty with
          | some t => if t ≠ "" then "# " ++ name ++ " [" ++ t ++ "]"
                      else "# " ++ name
          | none => "# " ++ name), ""]
      else []
    let stepLines := serialize_nodes 0 steps
    let noteLines := notes.foldr (fun n acc => "" :: ("> " ++ n) :: acc) []
    joinWith "\n" (headingLines ++ stepLines ++ noteLines)

/-- `_serialize_workout` (serializer.py lines 60–86).  Note that the heading
line renders only the name and `[type]`: the source never emits the date
(and `Workout` has no rpe/rir fields to emit). -/
def serialize_workout : Workout → String
  | .mk name ty _dt steps notes =>
    let prefixStr := if anyNested steps then "##" else "#"
    let headingLines : List String :=
      if name ≠ "" then
        [(match ty with
          | some t => if t ≠ "" then prefixStr ++ " " ++ name ++ " [" ++ t ++ "]"
                      else prefixStr ++ " " ++ name
          | none => prefixStr ++ " " ++ name), ""]
      else []
    let stepLines := steps.foldr
      (fun s acc =>
        match s with
        | .nested w => "" :: serialize_child_workout w :: acc
        | _ => serialize_node 0 s ++ acc) []
    let noteLines := notes.foldr (fun n acc => "" :: ("> " ++ n) :: acc) []
    joinWith "\n" (headingLines ++ stepLines ++ noteLines)

/-- The body of `dumps` past the `doc.variables` read (serializer.py lines
37–57), with the variable mapping supplied explicitly.  Unreachable in the
shipped code (see `dumps`), translated for completeness. -/
def dumpsBody (doc : Document) (vars : List (String × String)) : String :=
  let fmParts : List String :=
    if vars ≠ [] then
      ["---"] ++ vars.map (fun kv => kv.1 ++ ": " ++ kv.2) ++ ["---", ""]
    else []
  let wParts : List String :=
    (doc.workouts.enum.map
      (fun p =>
        (if p.1 > 0 ∨ vars ≠ [] then [""] else []) ++
          [serialize_workout p.2])).foldr (· ++ ·) []
  let result := joinWith "\n" (fmParts ++ wParts)
  if strEndsWith result "\n" then result else result ++ "\n"

/-- `dumps` (serializer.py lines 35–57).  Its first operation after creating
`parts` is `if doc.variables:` — an attribute read on `Document`, which
(`slots=True`, fields `workouts`/`metadata`/`span` only) raises
`AttributeError` for every document, empty or not, before anything is
serialized.  (Independently, the module cannot even be loaded: serializer.py
references `RIRParam` from `owf.ast.params`, which does not define it.) -/
def dumps (_doc : Document) : Except PyErr String :=
  .error (.attributeError "Document" "variables")

/-- Equality of `Except` results is decidable (used to evaluate the embedded
functions on concrete inputs). -/
instance {ε α : Type} [DecidableEq ε] [DecidableEq α] :
    DecidableEq (Except ε α) := fun x y =>
  match x, y with
  | .ok a, .ok b =>
    if h : a = b then isTrue (by rw [h]) else isFalse (by simp [h])
  | .error a, .error b =>
    if h : a = b then isTrue (by rw [h]) else isFalse (by simp [h])
  | .ok _, .error _ => isFalse (by simp)
  | .error _, .ok _ => isFalse (by simp)

/-!
# Claims

The claim theorems C1–C10 follow.
-/

/-- **C1** (code bug).  The claim says `parse(dumps(D)) == D` modulo
positions for every valid document.  In the shipped code the round trip
cannot return any document at all: `dumps` reads `doc.variables`, an
attribute `Document` does not have, so `dumps` raises `AttributeError` on
every input (first conjunct, for all documents); independently,
`parse_document` raises `AttributeError` on the spec's own simple example
because `_split_into_workouts` references the nonexistent enum member
`LineType.SESSION_HEADING` (second conjunct).  This contradicts the repo's
own round-trip tests (`tests/test_roundtrip.py`). -/
theorem c1_roundtrip_always_fails :
    (∀ d : Document,
      (dumps d >>= parse_document) =
        .error (.attributeError "Document" "variables")) ∧
    parse_document "# Ride [bike]\n\n- bike 5min @200W\n" =
      .error (.attributeError "LineType" "SESSION_HEADING") := by
  exact ⟨fun _ => rfl, rfl⟩

/-- Witness for C1 at a concrete document. -/
theorem c1_roundtrip_always_fails_witness :
    (dumps ⟨[], []⟩ >>= parse_document) =
      .error (.attributeError "Document" "variables") :=
  c1_roundtrip_always_fails.1 ⟨[], []⟩

/-- **C2** (code bug).  The claim says `dumps` is total on well-formed
documents.  In the shipped code `dumps` fails on *every* `Document`: its
first operation is `if doc.variables:`, and `Document` (a `slots=True`
dataclass with fields `workouts`, `metadata`, `span`) has no `variables`
attribute, so the call raises `AttributeError` unconditionally.  (The
serializer module cannot even be imported, since it imports `RIRParam`
from `owf.ast.params`, which does not define it.) -/
theorem c2_dumps_never_total :
    ∀ doc : Document,
      dumps doc = .error (.attributeError "Document" "variables") :=
  fun _ => rfl

/-- Witness for C2 at a concrete document. -/
theorem c2_dumps_never_total_witness :
    dumps ⟨[], [("FTP", "250W")]⟩ =
      .error (.attributeError "Document" "variables") :=
  c2_dumps_never_total ⟨[], [("FTP", "250W")]⟩

/-- **C3** (code bug).  The claim says the scanner classifies lines into six
kinds including a session-heading kind for `## ` lines.  The shipped
`LineType` enum has exactly five members (second conjunct enumerates the
whole type) — there is no session-heading kind — and a `## ` line falls
through every prefix check down to the catch-all, which degrades it to
`BLANK` with the text kept as content (first conjunct).  The repo's own
`tests/test_scanner.py::test_session_heading` expects
`LineType.SESSION_HEADING` for exactly this input. -/
theorem c3_scan_session_heading_is_blank :
    scan "## Saturday Training" =
      [⟨.blank, "## Saturday Training", 0, "## Saturday Training", 1, 1⟩] ∧
    (∀ lt : LineType,
      lt = .blank ∨ lt = .frontmatterFence ∨ lt = .heading ∨ lt = .step ∨
        lt = .note) := by
  refine ⟨by decide, ?_⟩
  intro lt
  cases lt <;> simp

/-- **C4** (code bug).  The claim says `resolve` recurses into the children
of every block variant, including circuits.  `_resolve_step`'s `isinstance`
chain covers `RepeatStep`, `Superset`, `EMOM`, `AlternatingEMOM`, `AMRAP`,
`ForTime` and `CustomInterval` but not `Circuit` (the resolver never even
mentions it), so a circuit falls through to `return step`: its child's
`VarRef "FTP"` stays unresolved (first conjunct), while the identical
superset is rewritten (second conjunct). -/
theorem c4_resolve_step_skips_circuit :
    resolve_step [("FTP", "250W")]
        (.circuit 3
          [.endurance "bike" (some ⟨300⟩) none [.power (.varRef "FTP")] []]
          []) =
      .ok (.circuit 3
        [.endurance "bike" (some ⟨300⟩) none [.power (.varRef "FTP")] []]
        []) ∧
    resolve_step [("FTP", "250W")]
        (.superset 3
          [.endurance "bike" (some ⟨300⟩) none [.power (.varRef "FTP")] []]
          []) =
      .ok (.superset 3
        [.endurance "bike" (some ⟨300⟩) none
          [.power (.literal 250 (some "W"))] []]
        []) :=
  ⟨rfl, rfl⟩

/-- **C5** (code bug).  The claim describes `resolve(doc, extra)`'s merge
and `VarRef` semantics.  The shipped `resolve` never gets that far: its
first statement is `variables = dict(doc.variables)`, and `Document`
(fields `workouts`, `metadata`, `span`; `slots=True`) has no `variables`
attribute, so every call raises `AttributeError` — it can neither succeed
nor raise the claimed `ResolveError`.  (`tests/test_resolver.py` expects
`resolve` to succeed or raise `ResolveError`.) -/
theorem c5_resolve_always_attribute_error :
    ∀ (doc : Document) (extra : List (String × String)),
      resolve doc extra = .error (.attributeError "Document" "variables") :=
  fun _ _ => rfl

/-- Witness for C5 at a concrete document and extra mapping. -/
theorem c5_resolve_always_attribute_error_witness :
    resolve ⟨[], []⟩ [("FTP", "250W")] =
      .error (.attributeError "Document" "variables") :=
  c5_resolve_always_attribute_error ⟨[], []⟩ [("FTP", "250W")]

/-- **C6** (confirmed).  `_resolve_expression`: resolving a `Percentage`
whose inner expression resolves to a `Literal` yields
`Literal(percent/100 * value)` with the inner unit carried unchanged
(first conjunct); resolving a `BinOp` whose sides resolve to `Literal`s
applies `+`/`-` numerically with the left unit if present else the right
(second conjunct); and the two concrete examples from the spec:
`@80% of FTP` with `FTP = "250W"` resolves (through `_resolve_param`) to
`PowerParam(Literal(200, "W"))`, and `@bodyweight + 20kg` with
`bodyweight = "80kg"` resolves to `Literal(100, "kg")`. -/
theorem c6_resolver_arithmetic :
    (∀ (env : List (String × String)) (pct : ℚ) (inner : Expression)
        (v : ℚ) (u : Option String),
      resolve_expression env inner = .ok (.literal v u) →
      resolve_expression env (.percentage pct inner) =
        .ok (.literal (pct / 100 * v) u)) ∧
    (∀ (env : List (String × String)) (l r : Expression)
        (vl vr : ℚ) (ul ur : Option String),
      resolve_expression env l = .ok (.literal vl ul) →
      resolve_expression env r = .ok (.literal vr ur) →
      resolve_expression env (.binOp "+" l r) =
          .ok (.literal (vl + vr) (pyOrUnit ul ur)) ∧
        resolve_expression env (.binOp "-" l r) =
          .ok (.literal (vl - vr) (pyOrUnit ul ur))) ∧
    resolve_param [("FTP", "250W")]
        (.power (.percentage 80 (.varRef "FTP"))) =
      .ok (.power (.literal 200 (some "W"))) ∧
    resolve_expression [("bodyweight", "80kg")]
        (.binOp "+" (.varRef "bodyweight") (.literal 20 (some "kg"))) =
      .ok (.literal 100 (some "kg")) := by
  refine ⟨?_, ?_, by decide, by decide⟩
  · intro env pct inner v u h
    simp only [resolve_expression, h]
  · intro env l r vl vr ul ur hl hr
    constructor <;> simp [resolve_expression, hl, hr]

/-- Witness for C6: the general rules applied at concrete inputs. -/
theorem c6_resolver_arithmetic_witness :
    resolve_expression [] (.percentage 50 (.literal 10 (some "W"))) =
      .ok (.literal 5 (some "W")) ∧
    resolve_expression [] (.binOp "+" (.literal 1 (some "kg")) (.literal 2 none)) =
      .ok (.literal 3 (pyOrUnit (some "kg") none)) := by
  constructor
  · have h := c6_resolver_arithmetic.1 [] 50 (.literal 10 (some "W")) 10
      (some "W") rfl
    rw [h]
    norm_num
  · exact (c6_resolver_arithmetic.2.1 [] (.literal 1 (some "kg"))
      (.literal 2 none) 1 2 (some "kg") none rfl rfl).1

/-- **C7** (code bug).  The claim says `@RIR<n>` (or `@RIR` + number,
case-insensitively) produces an `RIRParam` holding the integer.  The
shipped `parse_params` has no RIR branch at all, and `ast/params.py`
defines no `RIRParam` class (the `Param` sum in this file mirrors its six
variants): the tokens fall through to the expression route and come back
as `PowerParam(VarRef(...))`.  The repo's own
`tests/test_param_parser.py::test_rir_*` expect `RIRParam`. -/
theorem c7_rir_tokens_become_power_varrefs :
    parse_params ["@RIR2"] = .ok ([.power (.varRef "RIR2")], none) ∧
    parse_params ["@RIR", "2"] = .ok ([.power (.varRef "RIR 2")], none) ∧
    parse_params ["@rir", "3"] = .ok ([.power (.varRef "rir 3")], none) := by
  refine ⟨by decide, by decide, by decide⟩

/-- **C8** (code bug).  The claim (and the repo's own
`tests/test_block_builder.py::test_trailing_notes`) says a *single* note
separated from the last step only by a blank line still attaches to that
step.  The shipped boundary scan marks the trailing-notes boundary at the
*first* note that follows any blank line — it never checks for a second
note — so `- run 5km` / blank / `> Great run!` leaves the step's notes
empty and puts the note at workout level (first conjunct).  The second
conjunct shows the two-note case, which matches the claim (both notes at
workout level), and the third shows that without a blank line the note
does attach to the step. -/
theorem c8_single_trailing_note_detaches :
    buildBlocksForWorkout (scan "- run 5km\n\n> Great run!") =
      ([.mk ⟨.step, "- run 5km", 0, "run 5km", 1, 1⟩ [] []],
        ["Great run!"]) ∧
    buildBlocksForWorkout (scan "- bike 30min @easy\n\n> Note 1.\n> Note 2.") =
      ([.mk ⟨.step, "- bike 30min @easy", 0, "bike 30min @easy", 1, 1⟩ [] []],
        ["Note 1.", "Note 2."]) ∧
    buildBlocksForWorkout (scan "- run 5km\n> Great run!") =
      ([.mk ⟨.step, "- run 5km", 0, "run 5km", 1, 1⟩ [] ["Great run!"]],
        []) := by
  refine ⟨rfl, rfl, rfl⟩

/-- **C9** (confirmed).  For each supported duration literal form,
formatting the parsed `Duration` reproduces the canonical spelling. -/
theorem c9_duration_canonical_formats :
    (durationParse "30s").map durStr = some "30s" ∧
    (durationParse "90sec").map durStr = some "1min30s" ∧
    (durationParse "5min").map durStr = some "5min" ∧
    (durationParse "2h").map durStr = some "2h" ∧
    (durationParse "1:30").map durStr = some "1min30s" ∧
    (durationParse "1:30:00").map durStr = some "1h30min" ∧
    (durationParse "1h28min2s").map durStr = some "1h28min2s" := by
  refine ⟨by decide, by decide, by decide, by decide, by decide, by decide,
    by decide⟩

/-!
## Infrastructure for C10

C10 quantifies over *all* integral nonnegative durations, so the concrete
evaluation style above is not enough: we prove how `durStr` renders an
arbitrary `n : ℕ` seconds value in each of its branches and how the parser
reads each rendered shape back.
-/

theorem takeWhile_append_all {p : Char → Bool} {l : List Char}
    (r : List Char) (h : ∀ c ∈ l, p c = true) :
    (l ++ r).takeWhile p = l ++ r.takeWhile p := by
  induction l with
  | nil => simp
  | cons c t ih =>
    rw [List.cons_append, List.takeWhile_cons, if_pos (h c (by simp)),
      List.cons_append, ih (fun x hx => h x (by simp [hx]))]

theorem dropWhile_append_all {p : Char → Bool} {l : List Char}
    (r : List Char) (h : ∀ c ∈ l, p c = true) :
    (l ++ r).dropWhile p = r.dropWhile p := by
  induction l with
  | nil => simp
  | cons c t ih =>
    rw [List.cons_append, List.dropWhile_cons, if_pos (h c (by simp)),
      ih (fun x hx => h x (by simp [hx]))]

theorem dropWhile_none_id {p : Char → Bool} {l : List Char}
    (h : ∀ c ∈ l, p c = false) : l.dropWhile p = l := by
  cases l with
  | nil => rfl
  | cons c t => simp [List.dropWhile_cons, h c (by simp)]

theorem dropWhile_of_takeWhile_nil {p : Char → Bool} {l : List Char}
    (h : l.takeWhile p = []) : l.dropWhile p = l := by
  cases l with
  | nil => rfl
  | cons c t =>
    simp only [List.takeWhile_cons] at h
    by_cases hc : p c
    · simp [hc] at h
    · simp [List.dropWhile_cons, hc]

theorem listStartsWith_self_append (m r : List Char) :
    listStartsWith m (m ++ r) = true := by
  induction m with
  | nil => rfl
  | cons c t ih => simp [listStartsWith, ih]

/-- All the per-digit character facts the parsing lemmas need, checked by
exhausting the ten digits. -/
theorem digitChar_facts : ∀ d < 10,
    (digitChar d).isDigit = true ∧
    (digitChar d).toNat = 48 + d ∧
    (digitChar d).isWhitespace = false ∧
    digitChar d ≠ ':' ∧ digitChar d ≠ '.' ∧
    digitChar d ≠ 'm' ∧ digitChar d ≠ 'h' ∧ digitChar d ≠ 's' ∧
    digitChar d ≠ 'r' ∧ digitChar d ≠ 'o' := by decide

theorem natToDigitsFuel_spec :
    ∀ fuel n, n < fuel →
      natToDigitsFuel fuel n ≠ [] ∧
      (∀ c ∈ natToDigitsFuel fuel n, ∃ d, d < 10 ∧ c = digitChar d) ∧
      digitsToNat (natToDigitsFuel fuel n) = n := by
  intro fuel
  induction fuel with
  | zero => intro n h; omega
  | succ fuel ih =>
    intro n h
    by_cases h10 : n < 10
    · refine ⟨by simp [natToDigitsFuel, h10], ?_, ?_⟩
      · intro c hc
        simp only [natToDigitsFuel, if_pos h10, List.mem_singleton] at hc
        exact ⟨n, h10, hc⟩
      · have := (digitChar_facts n h10).2.1
        simp [natToDigitsFuel, h10, digitsToNat, this]
    · have hdiv : n / 10 < fuel := by
        have h1 : n / 10 < n := Nat.div_lt_self (by omega) (by omega)
        omega
      obtain ⟨hne, hdigs, hval⟩ := ih (n / 10) hdiv
      refine ⟨by simp [natToDigitsFuel, h10], ?_, ?_⟩
      · intro c hc
        simp only [natToDigitsFuel, if_neg h10, List.mem_append,
          List.mem_singleton] at hc
        rcases hc with hc | hc
        · exact hdigs c hc
        · exact ⟨n % 10, by omega, hc⟩
      · simp only [natToDigitsFuel, if_neg h10, digitsToNat,
          List.foldl_append]
        have hmod := (digitChar_facts (n % 10) (by omega)).2.1
        simp only [digitsToNat] at hval
        simp only [List.foldl_cons, List.foldl_nil, hval, hmod]
        omega

theorem natToDigits_ne_nil (n : ℕ) : natToDigits n ≠ [] :=
  (natToDigitsFuel_spec (n + 1) n (by omega)).1

theorem natToDigits_digitChars (n : ℕ) :
    ∀ c ∈ natToDigits n, ∃ d, d < 10 ∧ c = digitChar d :=
  (natToDigitsFuel_spec (n + 1) n (by omega)).2.1

theorem digitsToNat_natToDigits (n : ℕ) :
    digitsToNat (natToDigits n) = n :=
  (natToDigitsFuel_spec (n + 1) n (by omega)).2.2

theorem natToDigits_isDigit (n : ℕ) :
    ∀ c ∈ natToDigits n, c.isDigit = true := by
  intro c hc
  obtain ⟨d, hd, rfl⟩ := natToDigits_digitChars n c hc
  exact (digitChar_facts d hd).1

theorem natToDigits_not_ws (n : ℕ) :
    ∀ c ∈ natToDigits n, c.isWhitespace = false := by
  intro c hc
  obtain ⟨d, hd, rfl⟩ := natToDigits_digitChars n c hc
  exact (digitChar_facts d hd).2.2.1

theorem pyStripChars_id {l : List Char}
    (h : ∀ c ∈ l, c.isWhitespace = false) : pyStripChars l = l := by
  unfold pyStripChars
  rw [dropWhile_none_id h, dropWhile_none_id (fun c hc => h c (by
    simpa using hc))]
  simp

theorem pyTruncNat_natCast (n : ℕ) : pyTruncNat (n : ℚ) = n := by
  unfold pyTruncNat
  rw [Rat.num_natCast, Rat.den_natCast, Int.toNat_natCast, Nat.div_one]

theorem den_div_natCast_iff (n k : ℕ) (hk : k ≠ 0) :
    (((n : ℚ) / (k : ℚ)).den = 1) ↔ k ∣ n := by
  constructor
  · intro h
    have hk' : (k : ℚ) ≠ 0 := by exact_mod_cast hk
    have h2 : ((((n : ℚ) / k).num : ℚ)) = (n : ℚ) / k :=
      (Rat.den_eq_one_iff _).1 h
    have h3 : (((n : ℚ) / k).num : ℚ) * k = n := by
      rw [h2]
      field_simp
    have h4 : (((n : ℚ) / k).num) * (k : ℤ) = (n : ℤ) := by exact_mod_cast h3
    have h5 : (k : ℤ) ∣ (n : ℤ) := Dvd.intro_left _ h4
    exact_mod_cast h5
  · rintro ⟨m, rfl⟩
    have hk' : (k : ℚ) ≠ 0 := by exact_mod_cast hk
    have hdm : ((k * m : ℕ) : ℚ) / (k : ℚ) = (m : ℚ) := by
      push_cast
      field_simp
    rw [hdm, Rat.den_natCast]

theorem cast_div_of_dvd (n k : ℕ) (h : k ∣ n) (hk : k ≠ 0) :
    (n : ℚ) / (k : ℚ) = ((n / k : ℕ) : ℚ) :=
  (Nat.cast_div h (by exact_mod_cast hk)).symm

theorem intRepr_natCast (n : ℕ) : intRepr (n : ℤ) = natRepr n := by
  unfold intRepr
  rw [if_neg (by omega), Int.toNat_natCast]

theorem numRepr_natCast (n : ℕ) : numRepr (n : ℚ) = natRepr n := by
  unfold numRepr
  rw [if_pos (Rat.den_natCast n), Rat.num_natCast, intRepr_natCast]

/-- `durStr` on `n < 60` integral seconds: `"{n}s"`. -/
theorem durStr_lt60 (n : ℕ) (h : n < 60) :
    durStr ⟨(n : ℚ)⟩ = natRepr n ++ "s" := by
  simp only [durStr]
  rw [if_pos (by exact_mod_cast h), numRepr_natCast]

/-- `durStr` on whole minutes below an hour: `"{n/60}min"`. -/
theorem durStr_wholeMin (n : ℕ) (h1 : 60 ≤ n) (h2 : n < 3600)
    (h3 : 60 ∣ n) :
    durStr ⟨(n : ℚ)⟩ = natRepr (n / 60) ++ "min" := by
  have e60 : ((60 : ℚ)) = ((60 : ℕ) : ℚ) := by norm_num
  have hdiv : (n : ℚ) / 60 = ((n / 60 : ℕ) : ℚ) := by
    rw [e60, cast_div_of_dvd n 60 h3 (by norm_num)]
  simp only [durStr]
  rw [if_neg (by exact_mod_cast not_lt.2 h1), if_pos (by exact_mod_cast h2),
    hdiv, if_pos (Rat.den_natCast _), Rat.num_natCast, intRepr_natCast]

/-- `durStr` on non-whole-minute sub-hour integral seconds:
`"{n/60}min{n%60}s"`. -/
theorem durStr_minSec (n : ℕ) (h1 : 60 ≤ n) (h2 : n < 3600)
    (h3 : ¬ 60 ∣ n) :
    durStr ⟨(n : ℚ)⟩ =
      natRepr (n / 60) ++ "min" ++ natRepr (n % 60) ++ "s" := by
  have e60 : ((60 : ℚ)) = ((60 : ℕ) : ℚ) := by norm_num
  have hden : ¬ (((n : ℚ) / 60).den = 1) := by
    rw [e60]
    exact fun hc => h3 ((den_div_natCast_iff n 60 (by norm_num)).1 hc)
  have hmod : n % 60 ≠ 0 := fun hc => h3 (Nat.dvd_of_mod_eq_zero hc)
  simp only [durStr]
  rw [if_neg (by exact_mod_cast not_lt.2 h1), if_pos (by exact_mod_cast h2),
    if_neg hden, pyTruncNat_natCast,
    if_pos (And.intro hmod (Rat.den_natCast n))]

/-- `durStr` on whole hours: `"{n/3600}h"`. -/
theorem durStr_wholeHour (n : ℕ) (h1 : 3600 ≤ n) (h3 : 3600 ∣ n) :
    durStr ⟨(n : ℚ)⟩ = natRepr (n / 3600) ++ "h" := by
  have e36 : ((3600 : ℚ)) = ((3600 : ℕ) : ℚ) := by norm_num
  have hdiv : (n : ℚ) / 3600 = ((n / 3600 : ℕ) : ℚ) := by
    rw [e36, cast_div_of_dvd n 3600 h3 (by norm_num)]
  simp only [durStr]
  rw [if_neg (by exact_mod_cast (by omega : ¬ n < 60)),
    if_neg (by exact_mod_cast (by omega : ¬ n < 3600)),
    hdiv, if_pos (Rat.den_natCast _), Rat.num_natCast, intRepr_natCast]

/-- `durStr` on non-whole-hour integral seconds above an hour:
`"{n/3600}h"` plus the nonzero minute/second components. -/
theorem durStr_hourCompound (n : ℕ) (h1 : 3600 ≤ n) (h3 : ¬ 3600 ∣ n) :
    durStr ⟨(n : ℚ)⟩ =
      natRepr (n / 3600) ++ "h" ++
        (if n % 3600 / 60 ≠ 0 then natRepr (n % 3600 / 60) ++ "min"
         else "") ++
        (if n % 3600 % 60 ≠ 0 then natRepr (n % 3600 % 60) ++ "s"
         else "") := by
  have e36 : ((3600 : ℚ)) = ((3600 : ℕ) : ℚ) := by norm_num
  have hden : ¬ (((n : ℚ) / 3600).den = 1) := by
    rw [e36]
    exact fun hc => h3 ((den_div_natCast_iff n 3600 (by norm_num)).1 hc)
  simp only [durStr]
  rw [if_neg (by exact_mod_cast (by omega : ¬ n < 60)),
    if_neg (by exact_mod_cast (by omega : ¬ n < 3600)),
    if_neg hden, pyTruncNat_natCast, if_pos (Rat.den_natCast n)]

/-- The rendered duration strings use only decimal digits and the marker
letters `m`,`i`,`n`,`h`,`s`; such characters are neither colons nor
whitespace. -/
theorem shape_facts {l : List Char}
    (h : ∀ c ∈ l, (∃ d, d < 10 ∧ c = digitChar d) ∨
      c ∈ ['m', 'i', 'n', 'h', 's']) :
    (∀ c ∈ l, c ≠ ':') ∧ (∀ c ∈ l, c.isWhitespace = false) := by
  constructor <;> intro c hc <;> rcases h c hc with ⟨d, hd, rfl⟩ | hm
  · exact (digitChar_facts d hd).2.2.2.1
  · simp only [List.mem_cons, List.not_mem_nil, or_false] at hm
    rcases hm with rfl | rfl | rfl | rfl | rfl <;> decide
  · exact (digitChar_facts d hd).2.2.1
  · simp only [List.mem_cons, List.not_mem_nil, or_false] at hm
    rcases hm with rfl | rfl | rfl | rfl | rfl <;> decide

theorem natToDigits_head_digit (m : ℕ) :
    ∃ d t, d < 10 ∧ natToDigits m = digitChar d :: t := by
  cases h : natToDigits m with
  | nil => exact absurd h (natToDigits_ne_nil m)
  | cons c t =>
    have hm := natToDigits_digitChars m c (by rw [h]; exact List.mem_cons_self c t)
    obtain ⟨d, hd, rfl⟩ := hm
    exact ⟨d, t, hd, rfl⟩

theorem parseColon_no_colon {l : List Char} (h : ∀ c ∈ l, c ≠ ':') :
    parseColon l = none := by
  have hd : l.dropWhile (· ≠ ':') = [] := by
    induction l with
    | nil => rfl
    | cons c t ih =>
      rw [List.dropWhile_cons, if_pos (by simp [h c (by simp)])]
      exact ih (fun x hx => h x (by simp [hx]))
  unfold parseColon
  rw [hd]

theorem parseNumUnit_reduce (n : ℕ) (rest : List Char)
    (h1 : rest.takeWhile Char.isDigit = [])
    (h2 : rest.head? ≠ some '.')
    (h3 : rest.dropWhile Char.isWhitespace = rest) :
    parseNumUnit (natToDigits n ++ rest) =
      (if rest = ['s'] ∨ rest = ['s', 'e', 'c'] then some ((n : ℚ))
       else if rest = ['m', 'i', 'n'] then some ((n : ℚ) * 60)
       else if rest = ['h'] ∨ rest = ['h', 'r'] ∨ rest = ['h', 'o', 'u', 'r']
         then some ((n : ℚ) * 3600)
       else none) := by
  have hds : (natToDigits n ++ rest).takeWhile Char.isDigit =
      natToDigits n := by
    rw [takeWhile_append_all rest (natToDigits_isDigit n), h1,
      List.append_nil]
  have hdr : (natToDigits n ++ rest).dropWhile Char.isDigit = rest := by
    rw [dropWhile_append_all rest (natToDigits_isDigit n),
      dropWhile_of_takeWhile_nil h1]
  have hfrac : ¬ (rest.head? = some '.' ∧
      rest.tail.takeWhile Char.isDigit ≠ []) := fun hc => h2 hc.1
  simp only [parseNumUnit, hds, hdr, if_neg hfrac, h3]
  rw [if_neg (natToDigits_ne_nil n)]
  have hv : (digitsToNat (natToDigits n) : ℚ) +
      (digitsToNat ([] : List Char) : ℚ) /
        10 ^ (List.length ([] : List Char)) = (n : ℚ) := by
    rw [digitsToNat_natToDigits]
    norm_num [digitsToNat]
  rw [hv]

theorem parseNumUnit_s (n : ℕ) :
    parseNumUnit (natToDigits n ++ ['s']) = some ((n : ℚ)) := by
  rw [parseNumUnit_reduce n ['s'] (by decide) (by decide) (by decide)]
  simp

theorem parseNumUnit_min (n : ℕ) :
    parseNumUnit (natToDigits n ++ ['m', 'i', 'n']) =
      some ((n : ℚ) * 60) := by
  rw [parseNumUnit_reduce n ['m', 'i', 'n'] (by decide) (by decide)
    (by decide)]
  simp

theorem parseNumUnit_h (n : ℕ) :
    parseNumUnit (natToDigits n ++ ['h']) = some ((n : ℚ) * 3600) := by
  rw [parseNumUnit_reduce n ['h'] (by decide) (by decide) (by decide)]
  simp

theorem grabGroup_hit (k : ℕ) (marker rest : List Char)
    (h1 : (marker ++ rest).takeWhile Char.isDigit = []) :
    grabGroup (natToDigits k ++ (marker ++ rest)) marker = (some k, rest) := by
  have hds : (natToDigits k ++ (marker ++ rest)).takeWhile Char.isDigit =
      natToDigits k := by
    rw [takeWhile_append_all (marker ++ rest) (natToDigits_isDigit k), h1,
      List.append_nil]
  have hdr : (natToDigits k ++ (marker ++ rest)).dropWhile Char.isDigit =
      marker ++ rest := by
    rw [dropWhile_append_all (marker ++ rest) (natToDigits_isDigit k),
      dropWhile_of_takeWhile_nil h1]
  simp only [grabGroup, hds, hdr]
  rw [if_pos ⟨natToDigits_ne_nil k, listStartsWith_self_append marker rest⟩,
    List.drop_left, digitsToNat_natToDigits]

theorem grabGroup_miss (l marker : List Char)
    (h : listStartsWith marker (l.dropWhile Char.isDigit) = false) :
    grabGroup l marker = (none, l) := by
  simp [grabGroup, h]

theorem string_eq_of_data {s t : String} (h : s.data = t.data) : s = t := by
  cases s
  cases t
  exact congrArg String.mk h

theorem strData_append (s t : String) : (s ++ t).data = s.data ++ t.data :=
  rfl

theorem strData_mk (l : List Char) : (String.mk l).data = l := rfl

/-- `"{n}s"` parses back to `n` seconds. -/
theorem durationParse_sOnly (n : ℕ) :
    durationParse (String.mk (natToDigits n ++ ['s'])) = some ⟨(n : ℚ)⟩ := by
  have hok : ∀ c ∈ natToDigits n ++ ['s'],
      (∃ d, d < 10 ∧ c = digitChar d) ∨ c ∈ ['m', 'i', 'n', 'h', 's'] := by
    intro c hc
    rcases List.mem_append.1 hc with hc | hc
    · exact Or.inl (natToDigits_digitChars n c hc)
    · simp only [List.mem_singleton] at hc
      subst hc
      exact Or.inr (by decide)
  obtain ⟨hcol, hws⟩ := shape_facts hok
  unfold durationParse
  rw [strData_mk, pyStripChars_id hws]
  unfold durationParseChars
  rw [parseColon_no_colon hcol, parseNumUnit_s n]
  rfl

/-- `"{n}min"` parses back to `n * 60` seconds. -/
theorem durationParse_minOnly (n : ℕ) :
    durationParse (String.mk (natToDigits n ++ ['m', 'i', 'n'])) =
      some ⟨(n : ℚ) * 60⟩ := by
  have hok : ∀ c ∈ natToDigits n ++ ['m', 'i', 'n'],
      (∃ d, d < 10 ∧ c = digitChar d) ∨ c ∈ ['m', 'i', 'n', 'h', 's'] := by
    intro c hc
    rcases List.mem_append.1 hc with hc | hc
    · exact Or.inl (natToDigits_digitChars n c hc)
    · exact Or.inr (by simp only [List.mem_cons] at hc ⊢; tauto)
  obtain ⟨hcol, hws⟩ := shape_facts hok
  unfold durationParse
  rw [strData_mk, pyStripChars_id hws]
  unfold durationParseChars
  rw [parseColon_no_colon hcol, parseNumUnit_min n]
  rfl

/-- `"{n}h"` parses back to `n * 3600` seconds. -/
theorem durationParse_hOnly (n : ℕ) :
    durationParse (String.mk (natToDigits n ++ ['h'])) =
      some ⟨(n : ℚ) * 3600⟩ := by
  have hok : ∀ c ∈ natToDigits n ++ ['h'],
      (∃ d, d < 10 ∧ c = digitChar d) ∨ c ∈ ['m', 'i', 'n', 'h', 's'] := by
    intro c hc
    rcases List.mem_append.1 hc with hc | hc
    · exact Or.inl (natToDigits_digitChars n c hc)
    · simp only [List.mem_singleton] at hc
      subst hc
      exact Or.inr (by decide)
  obtain ⟨hcol, hws⟩ := shape_facts hok
  unfold durationParse
  rw [strData_mk, pyStripChars_id hws]
  unfold durationParseChars
  rw [parseColon_no_colon hcol, parseNumUnit_h n]
  rfl

/-- `"{a}min{b}s"` parses back (via the compound pattern) to `a*60 + b`. -/
theorem durationParse_minSec (a b : ℕ) (hb : b ≠ 0) :
    durationParse (String.mk (natToDigits a ++
        ('m' :: 'i' :: 'n' :: (natToDigits b ++ ['s'])))) =
      some ⟨((a * 60 + b : ℕ) : ℚ)⟩ := by
  have hok : ∀ c ∈ natToDigits a ++
      ('m' :: 'i' :: 'n' :: (natToDigits b ++ ['s'])),
      (∃ d, d < 10 ∧ c = digitChar d) ∨ c ∈ ['m', 'i', 'n', 'h', 's'] := by
    intro c hc
    simp only [List.mem_append, List.mem_cons, List.not_mem_nil,
      or_false] at hc
    rcases hc with hc | rfl | rfl | rfl | hc | rfl
    · exact Or.inl (natToDigits_digitChars a c hc)
    · exact Or.inr (by decide)
    · exact Or.inr (by decide)
    · exact Or.inr (by decide)
    · exact Or.inl (natToDigits_digitChars b c hc)
    · exact Or.inr (by decide)
  obtain ⟨hcol, hws⟩ := shape_facts hok
  have h1 : ('m' :: 'i' :: 'n' :: (natToDigits b ++ ['s'])).takeWhile
      Char.isDigit = [] := by
    rw [List.takeWhile_cons, if_neg (by decide)]
  have hnu : parseNumUnit (natToDigits a ++
      ('m' :: 'i' :: 'n' :: (natToDigits b ++ ['s']))) = none := by
    rw [parseNumUnit_reduce a _ h1 (by simp) (by
      rw [List.dropWhile_cons, if_neg (by decide)])]
    simp [natToDigits_ne_nil b]
  have hLd : (natToDigits a ++
      ('m' :: 'i' :: 'n' :: (natToDigits b ++ ['s']))).dropWhile
        Char.isDigit = 'm' :: 'i' :: 'n' :: (natToDigits b ++ ['s']) := by
    rw [dropWhile_append_all _ (natToDigits_isDigit a),
      dropWhile_of_takeWhile_nil h1]
  have hg1 : grabGroup (natToDigits a ++
      ('m' :: 'i' :: 'n' :: (natToDigits b ++ ['s']))) ['h'] =
      (none, natToDigits a ++
        ('m' :: 'i' :: 'n' :: (natToDigits b ++ ['s']))) := by
    refine grabGroup_miss _ _ ?_
    rw [hLd]
    simp [listStartsWith]
  have hg2 : grabGroup (natToDigits a ++
      ('m' :: 'i' :: 'n' :: (natToDigits b ++ ['s']))) ['m', 'i', 'n'] =
      (some a, natToDigits b ++ ['s']) :=
    grabGroup_hit a ['m', 'i', 'n'] (natToDigits b ++ ['s']) h1
  have hg3 : grabGroup (natToDigits b ++ ['s']) ['s'] = (some b, []) :=
    grabGroup_hit b ['s'] [] (by decide)
  have hcomp : parseCompound (natToDigits a ++
      ('m' :: 'i' :: 'n' :: (natToDigits b ++ ['s']))) =
      some ((a * 60 + b : ℕ) : ℚ) := by
    simp only [parseCompound, hg1, hg2, hg3]
    simp [hb]
  unfold durationParse
  rw [strData_mk, pyStripChars_id hws]
  unfold durationParseChars
  rw [parseColon_no_colon hcol, hnu, hcomp]
  rfl

/-- `"{x}h{m}min{s'}s"` parses back (compound) to `x*3600 + m*60 + s'`. -/
theorem durationParse_hMinSec (x m s' : ℕ) (hx : x ≠ 0) :
    durationParse (String.mk (natToDigits x ++
        ('h' :: (natToDigits m ++
          ('m' :: 'i' :: 'n' :: (natToDigits s' ++ ['s'])))))) =
      some ⟨((x * 3600 + m * 60 + s' : ℕ) : ℚ)⟩ := by
  have hok : ∀ c ∈ natToDigits x ++
      ('h' :: (natToDigits m ++
        ('m' :: 'i' :: 'n' :: (natToDigits s' ++ ['s'])))),
      (∃ d, d < 10 ∧ c = digitChar d) ∨ c ∈ ['m', 'i', 'n', 'h', 's'] := by
    intro c hc
    simp only [List.mem_append, List.mem_cons, List.not_mem_nil,
      or_false] at hc
    rcases hc with hc | rfl | hc | rfl | rfl | rfl | hc | rfl
    · exact Or.inl (natToDigits_digitChars x c hc)
    · exact Or.inr (by decide)
    · exact Or.inl (natToDigits_digitChars m c hc)
    · exact Or.inr (by decide)
    · exact Or.inr (by decide)
    · exact Or.inr (by decide)
    · exact Or.inl (natToDigits_digitChars s' c hc)
    · exact Or.inr (by decide)
  obtain ⟨hcol, hws⟩ := shape_facts hok
  have h1 : List.takeWhile Char.isDigit
      ('h' :: (natToDigits m ++
        ('m' :: 'i' :: 'n' :: (natToDigits s' ++ ['s'])))) = [] := by
    rw [List.takeWhile_cons, if_neg (by decide)]
  have hnu : parseNumUnit (natToDigits x ++
      ('h' :: (natToDigits m ++
        ('m' :: 'i' :: 'n' :: (natToDigits s' ++ ['s']))))) = none := by
    obtain ⟨d, t, hd, hdig⟩ := natToDigits_head_digit m
    rw [parseNumUnit_reduce x _ h1 (by simp) (by
      rw [List.dropWhile_cons, if_neg (by decide)]), hdig]
    have hf := digitChar_facts d hd
    simp [hf.2.2.2.2.2.2.2.2.1, hf.2.2.2.2.2.2.2.2.2]
  have h1m : List.takeWhile Char.isDigit
      ('m' :: 'i' :: 'n' :: (natToDigits s' ++ ['s'])) = [] := by
    rw [List.takeWhile_cons, if_neg (by decide)]
  have hg1 : grabGroup (natToDigits x ++
      ('h' :: (natToDigits m ++
        ('m' :: 'i' :: 'n' :: (natToDigits s' ++ ['s']))))) ['h'] =
      (some x, natToDigits m ++
        ('m' :: 'i' :: 'n' :: (natToDigits s' ++ ['s']))) :=
    grabGroup_hit x ['h'] _ h1
  have hg2 : grabGroup (natToDigits m ++
      ('m' :: 'i' :: 'n' :: (natToDigits s' ++ ['s']))) ['m', 'i', 'n'] =
      (some m, natToDigits s' ++ ['s']) :=
    grabGroup_hit m ['m', 'i', 'n'] (natToDigits s' ++ ['s']) h1m
  have hg3 : grabGroup (natToDigits s' ++ ['s']) ['s'] = (some s', []) :=
    grabGroup_hit s' ['s'] [] (by decide)
  have hcomp : parseCompound (natToDigits x ++
      ('h' :: (natToDigits m ++
        ('m' :: 'i' :: 'n' :: (natToDigits s' ++ ['s']))))) =
      some ((x * 3600 + m * 60 + s' : ℕ) : ℚ) := by
    simp only [parseCompound, hg1, hg2, hg3]
    simp [hx]
  unfold durationParse
  rw [strData_mk, pyStripChars_id hws]
  unfold durationParseChars
  rw [parseColon_no_colon hcol, hnu, hcomp]
  rfl

/-- `"{x}h{s'}s"` parses back (compound) to `x*3600 + s'`. -/
theorem durationParse_hSec (x s' : ℕ) (hx : x ≠ 0) :
    durationParse (String.mk (natToDigits x ++
        ('h' :: (natToDigits s' ++ ['s'])))) =
      some ⟨((x * 3600 + s' : ℕ) : ℚ)⟩ := by
  have hok : ∀ c ∈ natToDigits x ++ ('h' :: (natToDigits s' ++ ['s'])),
      (∃ d, d < 10 ∧ c = digitChar d) ∨ c ∈ ['m', 'i', 'n', 'h', 's'] := by
    intro c hc
    simp only [List.mem_append, List.mem_cons, List.not_mem_nil,
      or_false] at hc
    rcases hc with hc | rfl | hc | rfl
    · exact Or.inl (natToDigits_digitChars x c hc)
    · exact Or.inr (by decide)
    · exact Or.inl (natToDigits_digitChars s' c hc)
    · exact Or.inr (by decide)
  obtain ⟨hcol, hws⟩ := shape_facts hok
  have h1 : List.takeWhile Char.isDigit
      ('h' :: (natToDigits s' ++ ['s'])) = [] := by
    rw [List.takeWhile_cons, if_neg (by decide)]
  have hnu : parseNumUnit (natToDigits x ++
      ('h' :: (natToDigits s' ++ ['s']))) = none := by
    obtain ⟨d, t, hd, hdig⟩ := natToDigits_head_digit s'
    rw [parseNumUnit_reduce x _ h1 (by simp) (by
      rw [List.dropWhile_cons, if_neg (by decide)]), hdig]
    have hf := digitChar_facts d hd
    simp [hf.2.2.2.2.2.2.2.2.1, hf.2.2.2.2.2.2.2.2.2]
  have hg1 : grabGroup (natToDigits x ++
      ('h' :: (natToDigits s' ++ ['s']))) ['h'] =
      (some x, natToDigits s' ++ ['s']) :=
    grabGroup_hit x ['h'] _ h1
  have hsd : (natToDigits s' ++ ['s']).dropWhile Char.isDigit = ['s'] := by
    rw [dropWhile_append_all _ (natToDigits_isDigit s')]
    decide
  have hg2 : grabGroup (natToDigits s' ++ ['s']) ['m', 'i', 'n'] =
      (none, natToDigits s' ++ ['s']) := by
    refine grabGroup_miss _ _ ?_
    rw [hsd]
    decide
  have hg3 : grabGroup (natToDigits s' ++ ['s']) ['s'] = (some s', []) :=
    grabGroup_hit s' ['s'] [] (by decide)
  have hcomp : parseCompound (natToDigits x ++
      ('h' :: (natToDigits s' ++ ['s']))) =
      some ((x * 3600 + s' : ℕ) : ℚ) := by
    simp only [parseCompound, hg1, hg2, hg3]
    simp [hx]
  unfold durationParse
  rw [strData_mk, pyStripChars_id hws]
  unfold durationParseChars
  rw [parseColon_no_colon hcol, hnu, hcomp]
  rfl

/-- `"{x}h{m}min"` parses back (compound) to `x*3600 + m*60`. -/
theorem durationParse_hMin (x m : ℕ) (hx : x ≠ 0) :
    durationParse (String.mk (natToDigits x ++
        ('h' :: (natToDigits m ++ ['m', 'i', 'n'])))) =
      some ⟨((x * 3600 + m * 60 : ℕ) : ℚ)⟩ := by
  have hok : ∀ c ∈ natToDigits x ++ ('h' :: (natToDigits m ++ ['m', 'i', 'n'])),
      (∃ d, d < 10 ∧ c = digitChar d) ∨ c ∈ ['m', 'i', 'n', 'h', 's'] := by
    intro c hc
    simp only [List.mem_append, List.mem_cons, List.not_mem_nil,
      or_false] at hc
    rcases hc with hc | rfl | hc | rfl | rfl | rfl
    · exact Or.inl (natToDigits_digitChars x c hc)
    · exact Or.inr (by decide)
    · exact Or.inl (natToDigits_digitChars m c hc)
    · exact Or.inr (by decide)
    · exact Or.inr (by decide)
    · exact Or.inr (by decide)
  obtain ⟨hcol, hws⟩ := shape_facts hok
  have h1 : List.takeWhile Char.isDigit
      ('h' :: (natToDigits m ++ ['m', 'i', 'n'])) = [] := by
    rw [List.takeWhile_cons, if_neg (by decide)]
  have hnu : parseNumUnit (natToDigits x ++
      ('h' :: (natToDigits m ++ ['m', 'i', 'n']))) = none := by
    obtain ⟨d, t, hd, hdig⟩ := natToDigits_head_digit m
    rw [parseNumUnit_reduce x _ h1 (by simp) (by
      rw [List.dropWhile_cons, if_neg (by decide)]), hdig]
    have hf := digitChar_facts d hd
    simp [hf.2.2.2.2.2.2.2.2.1, hf.2.2.2.2.2.2.2.2.2]
  have hg1 : grabGroup (natToDigits x ++
      ('h' :: (natToDigits m ++ ['m', 'i', 'n']))) ['h'] =
      (some x, natToDigits m ++ ['m', 'i', 'n']) :=
    grabGroup_hit x ['h'] _ h1
  have hg2 : grabGroup (natToDigits m ++ ['m', 'i', 'n']) ['m', 'i', 'n'] =
      (some m, []) :=
    grabGroup_hit m ['m', 'i', 'n'] [] (by decide)
  have hg3 : grabGroup ([] : List Char) ['s'] = (none, []) := by decide
  have hcomp : parseCompound (natToDigits x ++
      ('h' :: (natToDigits m ++ ['m', 'i', 'n']))) =
      some ((x * 3600 + m * 60 : ℕ) : ℚ) := by
    simp only [parseCompound, hg1, hg2, hg3]
    simp [hx]
  unfold durationParse
  rw [strData_mk, pyStripChars_id hws]
  unfold durationParseChars
  rw [parseColon_no_colon hcol, hnu, hcomp]
  rfl

/-- Round trip for every integral-second duration in the exact-arithmetic
model (`durStr` / `durationParse`), by cases on the formatter's branches.
Under binary64 rounding this universal statement is *false* — see the C10
counterexample below — and survives only below `2 ^ 53`
(`durationParseF_durStrF_natCast`). -/
theorem durationParse_durStr_natCast (n : ℕ) :
    durationParse (durStr ⟨(n : ℚ)⟩) = some ⟨(n : ℚ)⟩ := by
  have hmin : ("min" : String).data = ['m', 'i', 'n'] := rfl
  have hsd : ("s" : String).data = ['s'] := rfl
  have hhd : ("h" : String).data = ['h'] := rfl
  have hed : ("" : String).data = [] := rfl
  rcases Nat.lt_or_ge n 60 with h | h
  · rw [durStr_lt60 n h]
    exact durationParse_sOnly n
  · rcases Nat.lt_or_ge n 3600 with h2 | h2
    · by_cases h3 : 60 ∣ n
      · rw [durStr_wholeMin n h h2 h3]
        refine (durationParse_minOnly (n / 60)).trans ?_
        have hv : ((n / 60 : ℕ) : ℚ) * 60 = (n : ℚ) := by
          rw_mod_cast [Nat.div_mul_cancel h3]
        rw [hv]
      · rw [durStr_minSec n h h2 h3]
        have hb : n % 60 ≠ 0 := fun hc => h3 (Nat.dvd_of_mod_eq_zero hc)
        have hstr : natRepr (n / 60) ++ "min" ++ natRepr (n % 60) ++ "s" =
            String.mk (natToDigits (n / 60) ++
              ('m' :: 'i' :: 'n' :: (natToDigits (n % 60) ++ ['s']))) :=
          string_eq_of_data (by
            simp [strData_append, strData_mk, natRepr, hmin, hsd,
              List.append_assoc])
        rw [hstr, durationParse_minSec (n / 60) (n % 60) hb]
        have hv : n / 60 * 60 + n % 60 = n := by omega
        rw [hv]
    · by_cases h3 : 3600 ∣ n
      · rw [durStr_wholeHour n h2 h3]
        refine (durationParse_hOnly (n / 3600)).trans ?_
        have hv : ((n / 3600 : ℕ) : ℚ) * 3600 = (n : ℚ) := by
          rw_mod_cast [Nat.div_mul_cancel h3]
        rw [hv]
      · rw [durStr_hourCompound n h2 h3]
        have hx : n / 3600 ≠ 0 := by omega
        have hnd : ¬ (n % 3600 = 0) := by omega
        by_cases hm : n % 3600 / 60 = 0
        · have hs : n % 3600 % 60 ≠ 0 := by omega
          rw [if_neg (by omega), if_pos hs]
          have hstr : natRepr (n / 3600) ++ "h" ++ "" ++
              (natRepr (n % 3600 % 60) ++ "s") =
              String.mk (natToDigits (n / 3600) ++
                ('h' :: (natToDigits (n % 3600 % 60) ++ ['s']))) :=
            string_eq_of_data (by
              simp [strData_append, strData_mk, natRepr, hhd, hsd, hed,
                List.append_assoc])
          rw [hstr, durationParse_hSec (n / 3600) (n % 3600 % 60) hx]
          have hv : n / 3600 * 3600 + n % 3600 % 60 = n := by omega
          rw [hv]
        · by_cases hs : n % 3600 % 60 = 0
          · rw [if_pos hm, if_neg (by omega)]
            have hstr : natRepr (n / 3600) ++ "h" ++
                (natRepr (n % 3600 / 60) ++ "min") ++ "" =
                String.mk (natToDigits (n / 3600) ++
                  ('h' :: (natToDigits (n % 3600 / 60) ++
                    ['m', 'i', 'n']))) :=
              string_eq_of_data (by
                simp [strData_append, strData_mk, natRepr, hhd, hmin, hed,
                  List.append_assoc])
            rw [hstr, durationParse_hMin (n / 3600) (n % 3600 / 60) hx]
            have hv : n / 3600 * 3600 + n % 3600 / 60 * 60 = n := by omega
            rw [hv]
          · rw [if_pos hm, if_pos hs]
            have hstr : natRepr (n / 3600) ++ "h" ++
                (natRepr (n % 3600 / 60) ++ "min") ++
                (natRepr (n % 3600 % 60) ++ "s") =
                String.mk (natToDigits (n / 3600) ++
                  ('h' :: (natToDigits (n % 3600 / 60) ++
                    ('m' :: 'i' :: 'n' ::
                      (natToDigits (n % 3600 % 60) ++ ['s']))))) :=
              string_eq_of_data (by
                simp [strData_append, strData_mk, natRepr, hhd, hmin, hsd,
                  List.append_assoc])
            rw [hstr, durationParse_hMinSec (n / 3600) (n % 3600 / 60)
              (n % 3600 % 60) hx]
            have hv : n / 3600 * 3600 + n % 3600 / 60 * 60 +
                n % 3600 % 60 = n := by omega
            rw [hv]

/-!
### The rounding-faithful model

Facts about `roundDouble` on the values the duration code computes: it is
the identity on integers below `2 ^ 53`, and a quotient `n / k` that is
not exact stays non-integral after rounding as long as `n < 2 ^ 53` (the
rounding error is at most half an ulp, which is below `1 / k` there).
Above `2 ^ 53` the divisions in `__str__` can round to a *whole* number of
hours and the multiplication in `parse` rounds again, which breaks the
round trip — the C10 counterexample below.
-/

theorem natLog2Fuel_spec :
    ∀ fuel n, 1 ≤ n → n ≤ fuel →
      2 ^ natLog2Fuel fuel n ≤ n ∧ n < 2 ^ (natLog2Fuel fuel n + 1) := by
  intro fuel
  induction fuel with
  | zero => intro n h1 h2; omega
  | succ fuel ih =>
    intro n h1 h2
    by_cases hn : n ≤ 1
    · have hone : n = 1 := by omega
      subst hone
      simp [natLog2Fuel]
    · have hrec := ih (n / 2) (by omega) (by omega)
      simp only [natLog2Fuel, if_neg hn]
      have e1 : 2 ^ (natLog2Fuel fuel (n / 2) + 1) =
          2 * 2 ^ natLog2Fuel fuel (n / 2) := by ring
      have e2 : 2 ^ (natLog2Fuel fuel (n / 2) + 1 + 1) =
          2 * 2 ^ (natLog2Fuel fuel (n / 2) + 1) := by ring
      omega

theorem natLog2_spec (n : ℕ) (h : 1 ≤ n) :
    2 ^ natLog2 n ≤ n ∧ n < 2 ^ (natLog2 n + 1) :=
  natLog2Fuel_spec n n h le_rfl

theorem qLog2_spec (q : ℚ) (hq : 0 < q) :
    (2 : ℚ) ^ qLog2 q ≤ q ∧ q < 2 ^ (qLog2 q + 1) := by
  have hnum : 0 < q.num := Rat.num_pos.2 hq
  have ha1 : 1 ≤ q.num.toNat := by omega
  have hb1 : 1 ≤ q.den := q.pos
  obtain ⟨hla1, hla2⟩ := natLog2_spec q.num.toNat ha1
  obtain ⟨hlb1, hlb2⟩ := natLog2_spec q.den hb1
  set la : ℕ := natLog2 q.num.toNat with hla
  set lb : ℕ := natLog2 q.den with hlb
  set a : ℕ := q.num.toNat with hadef
  set b : ℕ := q.den with hbdef
  have hb0 : (0 : ℚ) < b := by exact_mod_cast hb1
  have hq_eq : q = (a : ℚ) / (b : ℚ) := by
    rw [hadef, hbdef]
    rw [show ((q.num.toNat : ℕ) : ℚ) = ((q.num : ℤ) : ℚ) by
      exact_mod_cast congrArg Int.cast (Int.toNat_of_nonneg hnum.le)]
    exact (Rat.num_div_den q).symm
  have hA1 : (2 : ℚ) ^ ((la : ℤ)) ≤ (a : ℚ) := by
    rw [zpow_natCast]
    exact_mod_cast hla1
  have hA2 : (a : ℚ) < 2 ^ ((la : ℤ) + 1) := by
    rw [show (la : ℤ) + 1 = ((la + 1 : ℕ) : ℤ) by push_cast; ring, zpow_natCast]
    exact_mod_cast hla2
  have hB1 : (2 : ℚ) ^ ((lb : ℤ)) ≤ (b : ℚ) := by
    rw [zpow_natCast]
    exact_mod_cast hlb1
  have hB2 : (b : ℚ) < 2 ^ ((lb : ℤ) + 1) := by
    rw [show (lb : ℤ) + 1 = ((lb + 1 : ℕ) : ℤ) by push_cast; ring, zpow_natCast]
    exact_mod_cast hlb2
  set e0 : ℤ := (la : ℤ) - (lb : ℤ) with he0
  have hupper : q < 2 ^ (e0 + 1) := by
    rw [hq_eq, div_lt_iff₀ hb0]
    calc (a : ℚ) < 2 ^ ((la : ℤ) + 1) := hA2
      _ = 2 ^ (e0 + 1) * 2 ^ ((lb : ℤ)) := by
          rw [← zpow_add₀ (by norm_num : (2 : ℚ) ≠ 0)]
          congr 1
          omega
      _ ≤ 2 ^ (e0 + 1) * b :=
          mul_le_mul_of_nonneg_left hB1 (by positivity)
  have hlower : (2 : ℚ) ^ (e0 - 1) < q := by
    rw [hq_eq, lt_div_iff₀ hb0]
    calc (2 : ℚ) ^ (e0 - 1) * b < 2 ^ (e0 - 1) * 2 ^ ((lb : ℤ) + 1) :=
          mul_lt_mul_of_pos_left hB2 (by positivity)
      _ = 2 ^ ((la : ℤ)) := by
          rw [← zpow_add₀ (by norm_num : (2 : ℚ) ≠ 0)]
          congr 1
          omega
      _ ≤ a := hA1
  unfold qLog2
  by_cases hcase : (2 : ℚ) ^ e0 ≤ q
  · rw [if_pos hcase]
    exact ⟨hcase, hupper⟩
  · rw [if_neg hcase]
    push_neg at hcase
    refine ⟨hlower.le, ?_⟩
    rw [show e0 - 1 + 1 = e0 by ring]
    exact hcase

theorem roundTiesEven_err (x : ℚ) : |(roundTiesEven x : ℚ) - x| ≤ 1 / 2 := by
  have h1 : (⌊x⌋ : ℚ) ≤ x := Int.floor_le x
  have h2 : x < ⌊x⌋ + 1 := Int.lt_floor_add_one x
  unfold roundTiesEven
  split_ifs with hA hB hC
  · rw [abs_of_nonneg (by push_cast; linarith)]
    push_cast
    linarith
  · rw [abs_of_nonpos (by linarith)]
    linarith
  · rw [abs_of_nonpos (by linarith)]
    linarith
  · rw [abs_of_nonneg (by push_cast; linarith)]
    push_cast
    linarith

theorem roundDouble_pos_eq (q : ℚ) (hq : 0 < q) :
    roundDouble q =
      (roundTiesEven (q / 2 ^ (qLog2 q - 52)) : ℚ) * 2 ^ (qLog2 q - 52) := by
  unfold roundDouble
  rw [if_neg (ne_of_gt hq)]
  simp only [if_neg (not_lt.2 hq.le), one_mul]

/-- The rounding error is at most half an ulp. -/
theorem roundDouble_err (q : ℚ) (hq : 0 < q) :
    |roundDouble q - q| ≤ 2 ^ (qLog2 q - 53) := by
  rw [roundDouble_pos_eq q hq]
  set u : ℤ := qLog2 q - 52 with hu
  have hpow : (0 : ℚ) < 2 ^ u := zpow_pos (by norm_num) u
  have hkey : q / 2 ^ u * 2 ^ u = q := div_mul_cancel₀ q (ne_of_gt hpow)
  have hstep : (roundTiesEven (q / 2 ^ u) : ℚ) * 2 ^ u - q =
      ((roundTiesEven (q / 2 ^ u) : ℚ) - q / 2 ^ u) * 2 ^ u := by
    rw [sub_mul, hkey]
  rw [hstep, abs_mul, abs_of_pos hpow]
  have herr := roundTiesEven_err (q / 2 ^ u)
  have hle : |(roundTiesEven (q / 2 ^ u) : ℚ) - q / 2 ^ u| * 2 ^ u ≤
      1 / 2 * 2 ^ u := mul_le_mul_of_nonneg_right herr hpow.le
  refine hle.trans (le_of_eq ?_)
  rw [show qLog2 q - 53 = u + (-1) by rw [hu]; ring,
    zpow_add₀ (by norm_num : (2 : ℚ) ≠ 0), zpow_neg_one]
  ring

/-- Integers below `2 ^ 53` are exact binary64 values. -/
theorem roundDouble_natCast (m : ℕ) (h : m < 2 ^ 53) :
    roundDouble (m : ℚ) = m := by
  rcases Nat.eq_zero_or_pos m with rfl | hm
  · simp [roundDouble]
  · have hq : (0 : ℚ) < m := by exact_mod_cast hm
    rw [roundDouble_pos_eq _ hq]
    obtain ⟨hs1, hs2⟩ := qLog2_spec (m : ℚ) hq
    set e : ℤ := qLog2 (m : ℚ) with he
    have he52 : e ≤ 52 := by
      by_contra hc
      push_neg at hc
      have h53 : (2 : ℚ) ^ ((53 : ℕ) : ℤ) ≤ 2 ^ e :=
        zpow_le_zpow_right₀ (by norm_num) (by omega)
      rw [zpow_natCast] at h53
      have hmq : (m : ℚ) < 2 ^ (53 : ℕ) := by exact_mod_cast h
      linarith
    set k : ℕ := (52 - e).toNat with hk
    have hkeq : (52 : ℤ) - e = (k : ℤ) := by omega
    have hpow : (2 : ℚ) ^ (e - 52) = ((2 ^ k : ℕ) : ℚ)⁻¹ := by
      rw [show e - 52 = -((52 : ℤ) - e) by ring, hkeq, zpow_neg, zpow_natCast]
      push_cast
      ring
    have hscaled : (m : ℚ) / 2 ^ (e - 52) = ((m * 2 ^ k : ℕ) : ℚ) := by
      rw [hpow, div_eq_mul_inv, inv_inv]
      push_cast
      ring
    rw [hscaled]
    have hr : roundTiesEven ((m * 2 ^ k : ℕ) : ℚ) = ((m * 2 ^ k : ℕ) : ℤ) := by
      unfold roundTiesEven
      rw [Int.floor_natCast]
      norm_num
    rw [hr, hpow]
    push_cast
    field_simp

/-- A quotient `n / k` with `k` not dividing `n` and `n < 2 ^ 53` is not an
integer even after rounding: the error is below half an ulp `< 1 / k`. -/
theorem roundDouble_div_den (n k : ℕ) (hk : 0 < k) (hn : 0 < n)
    (h53 : n < 2 ^ 53) (hnd : ¬ k ∣ n) :
    (roundDouble ((n : ℚ) / (k : ℚ))).den ≠ 1 := by
  intro hden
  have hkq : (0 : ℚ) < k := by exact_mod_cast hk
  have hq : 0 < (n : ℚ) / (k : ℚ) :=
    div_pos (by exact_mod_cast hn) hkq
  set q : ℚ := (n : ℚ) / (k : ℚ) with hqdef
  obtain ⟨hs1, hs2⟩ := qLog2_spec q hq
  have hub : q < (2 : ℚ) ^ (53 : ℕ) / k := by
    rw [hqdef, div_lt_div_iff₀ hkq hkq]
    have : (n : ℚ) < 2 ^ (53 : ℕ) := by exact_mod_cast h53
    nlinarith
  have hsmall : (2 : ℚ) ^ (qLog2 q - 53) < 1 / k := by
    have h1 : (2 : ℚ) ^ qLog2 q < 2 ^ (53 : ℕ) / k := lt_of_le_of_lt hs1 hub
    have h2 : (2 : ℚ) ^ (qLog2 q - 53) = 2 ^ qLog2 q / 2 ^ ((53 : ℕ) : ℤ) := by
      rw [← zpow_sub₀ (by norm_num : (2 : ℚ) ≠ 0)]
      norm_num
    have h3 : (2 : ℚ) ^ qLog2 q * k < 2 ^ (53 : ℕ) := by
      have := (lt_div_iff₀ hkq).1 h1
      linarith
    rw [h2, zpow_natCast,
      div_lt_div_iff₀ (by positivity : (0 : ℚ) < 2 ^ (53 : ℕ)) hkq]
    linarith
  have herr := roundDouble_err q hq
  have hz : ((roundDouble q).num : ℚ) = roundDouble q :=
    (Rat.den_eq_one_iff _).1 hden
  set z : ℤ := (roundDouble q).num with hzdef
  have hne : z * (k : ℤ) - (n : ℤ) ≠ 0 := by
    intro hc
    apply hnd
    have hdvd : (k : ℤ) ∣ (n : ℤ) := Dvd.intro_left z (by omega)
    exact_mod_cast hdvd
  have hdist : 1 / (k : ℚ) ≤ |(z : ℚ) - q| := by
    have hrepr : (z : ℚ) - q = ((z * k - n : ℤ) : ℚ) / k := by
      rw [hqdef]
      push_cast
      field_simp
    rw [hrepr, abs_div, abs_of_pos hkq, div_le_div_iff₀ hkq hkq]
    have h1 : (1 : ℤ) ≤ |z * (k : ℤ) - (n : ℤ)| := Int.one_le_abs hne
    have h1q : (1 : ℚ) ≤ |((z * k - n : ℤ) : ℚ)| := by
      rw [← Int.cast_abs]
      exact_mod_cast h1
    nlinarith
  rw [← hz] at herr
  linarith

/-- An exact integer quotient below `2 ^ 53` rounds to itself. -/
theorem roundDouble_div_exact (n k : ℕ) (hk : k ≠ 0) (hd : k ∣ n)
    (h53 : n / k < 2 ^ 53) :
    roundDouble ((n : ℚ) / (k : ℚ)) = ((n / k : ℕ) : ℚ) := by
  rw [cast_div_of_dvd n k hd hk]
  exact roundDouble_natCast _ h53

/-- A product of naturals below `2 ^ 53` rounds to itself. -/
theorem roundDouble_mul_natCast (n k : ℕ) (h : n * k < 2 ^ 53) :
    roundDouble ((n : ℚ) * (k : ℚ)) = (n : ℚ) * (k : ℚ) := by
  have hcast : (n : ℚ) * (k : ℚ) = ((n * k : ℕ) : ℚ) := by push_cast; ring
  rw [hcast, roundDouble_natCast _ h]

/-- `durStrF` on `n < 60` integral seconds: `"{n}s"` (no rounding in this
branch). -/
theorem durStrF_lt60 (n : ℕ) (h : n < 60) :
    durStrF ⟨(n : ℚ)⟩ = natRepr n ++ "s" := by
  simp only [durStrF]
  rw [if_pos (by exact_mod_cast h), numRepr_natCast]

/-- `durStrF` on whole minutes below an hour: the rounded `s / 60` is the
exact integer quotient. -/
theorem durStrF_wholeMin (n : ℕ) (h1 : 60 ≤ n) (h2 : n < 3600)
    (h3 : 60 ∣ n) :
    durStrF ⟨(n : ℚ)⟩ = natRepr (n / 60) ++ "min" := by
  have e60 : ((60 : ℚ)) = ((60 : ℕ) : ℚ) := by norm_num
  have hdiv : roundDouble ((n : ℚ) / 60) = ((n / 60 : ℕ) : ℚ) := by
    rw [e60]
    refine roundDouble_div_exact n 60 (by norm_num) h3 ?_
    have hp53 : (2 : ℕ) ^ 53 = 9007199254740992 := by norm_num
    omega
  simp only [durStrF]
  rw [if_neg (by exact_mod_cast not_lt.2 h1), if_pos (by exact_mod_cast h2),
    hdiv, if_pos (Rat.den_natCast _), Rat.num_natCast, intRepr_natCast]

/-- `durStrF` on non-whole-minute sub-hour integral seconds:
`"{n/60}min{n%60}s"`; the rounded `s / 60` stays non-integral. -/
theorem durStrF_minSec (n : ℕ) (h1 : 60 ≤ n) (h2 : n < 3600)
    (h3 : ¬ 60 ∣ n) :
    durStrF ⟨(n : ℚ)⟩ =
      natRepr (n / 60) ++ "min" ++ natRepr (n % 60) ++ "s" := by
  have e60 : ((60 : ℚ)) = ((60 : ℕ) : ℚ) := by norm_num
  have hden : ¬ ((roundDouble ((n : ℚ) / 60)).den = 1) := by
    rw [e60]
    refine roundDouble_div_den n 60 (by norm_num) (by omega) ?_ h3
    have hp53 : (2 : ℕ) ^ 53 = 9007199254740992 := by norm_num
    omega
  have hmod : n % 60 ≠ 0 := fun hc => h3 (Nat.dvd_of_mod_eq_zero hc)
  simp only [durStrF]
  rw [if_neg (by exact_mod_cast not_lt.2 h1), if_pos (by exact_mod_cast h2),
    if_neg hden, pyTruncNat_natCast,
    if_pos (And.intro hmod (Rat.den_natCast n))]

/-- `durStrF` on whole hours below `2 ^ 53` seconds: `"{n/3600}h"`. -/
theorem durStrF_wholeHour (n : ℕ) (h1 : 3600 ≤ n) (h53 : n < 2 ^ 53)
    (h3 : 3600 ∣ n) :
    durStrF ⟨(n : ℚ)⟩ = natRepr (n / 3600) ++ "h" := by
  have e36 : ((3600 : ℚ)) = ((3600 : ℕ) : ℚ) := by norm_num
  have hdiv : roundDouble ((n : ℚ) / 3600) = ((n / 3600 : ℕ) : ℚ) := by
    rw [e36]
    refine roundDouble_div_exact n 3600 (by norm_num) h3 ?_
    have := Nat.div_le_self n 3600
    omega
  simp only [durStrF]
  rw [if_neg (by exact_mod_cast (by omega : ¬ n < 60)),
    if_neg (by exact_mod_cast (by omega : ¬ n < 3600)),
    hdiv, if_pos (Rat.den_natCast _), Rat.num_natCast, intRepr_natCast]

/-- `durStrF` on non-whole-hour integral seconds in `[3600, 2 ^ 53)`:
compound rendering, the rounded `s / 3600` stays non-integral. -/
theorem durStrF_hourCompound (n : ℕ) (h1 : 3600 ≤ n) (h53 : n < 2 ^ 53)
    (h3 : ¬ 3600 ∣ n) :
    durStrF ⟨(n : ℚ)⟩ =
      natRepr (n / 3600) ++ "h" ++
        (if n % 3600 / 60 ≠ 0 then natRepr (n % 3600 / 60) ++ "min"
         else "") ++
        (if n % 3600 % 60 ≠ 0 then natRepr (n % 3600 % 60) ++ "s"
         else "") := by
  have e36 : ((3600 : ℚ)) = ((3600 : ℕ) : ℚ) := by norm_num
  have hden : ¬ ((roundDouble ((n : ℚ) / 3600)).den = 1) := by
    rw [e36]
    exact roundDouble_div_den n 3600 (by norm_num) (by omega) h53 h3
  simp only [durStrF]
  rw [if_neg (by exact_mod_cast (by omega : ¬ n < 60)),
    if_neg (by exact_mod_cast (by omega : ¬ n < 3600)),
    if_neg hden, pyTruncNat_natCast, if_pos (Rat.den_natCast n)]

theorem parseNumUnitF_reduce (n : ℕ) (rest : List Char)
    (h1 : rest.takeWhile Char.isDigit = [])
    (h2 : rest.head? ≠ some '.')
    (h3 : rest.dropWhile Char.isWhitespace = rest) :
    parseNumUnitF (natToDigits n ++ rest) =
      (if rest = ['s'] ∨ rest = ['s', 'e', 'c'] then
        some (roundDouble ((n : ℚ)))
       else if rest = ['m', 'i', 'n'] then
        some (roundDouble (roundDouble ((n : ℚ)) * 60))
       else if rest = ['h'] ∨ rest = ['h', 'r'] ∨ rest = ['h', 'o', 'u', 'r']
         then some (roundDouble (roundDouble ((n : ℚ)) * 3600))
       else none) := by
  have hds : (natToDigits n ++ rest).takeWhile Char.isDigit =
      natToDigits n := by
    rw [takeWhile_append_all rest (natToDigits_isDigit n), h1,
      List.append_nil]
  have hdr : (natToDigits n ++ rest).dropWhile Char.isDigit = rest := by
    rw [dropWhile_append_all rest (natToDigits_isDigit n),
      dropWhile_of_takeWhile_nil h1]
  have hfrac : ¬ (rest.head? = some '.' ∧
      rest.tail.takeWhile Char.isDigit ≠ []) := fun hc => h2 hc.1
  simp only [parseNumUnitF, hds, hdr, if_neg hfrac, h3]
  rw [if_neg (natToDigits_ne_nil n)]
  have hv : (digitsToNat (natToDigits n) : ℚ) +
      (digitsToNat ([] : List Char) : ℚ) /
        10 ^ (List.length ([] : List Char)) = (n : ℚ) := by
    rw [digitsToNat_natToDigits]
    norm_num [digitsToNat]
  rw [hv]

theorem parseNumUnitF_s (n : ℕ) (h53 : n < 2 ^ 53) :
    parseNumUnitF (natToDigits n ++ ['s']) = some ((n : ℚ)) := by
  rw [parseNumUnitF_reduce n ['s'] (by decide) (by decide) (by decide)]
  simp [roundDouble_natCast n h53]

theorem parseNumUnitF_min (n : ℕ) (h53 : n < 2 ^ 53)
    (h60 : n * 60 < 2 ^ 53) :
    parseNumUnitF (natToDigits n ++ ['m', 'i', 'n']) =
      some ((n : ℚ) * 60) := by
  rw [parseNumUnitF_reduce n ['m', 'i', 'n'] (by decide) (by decide)
    (by decide)]
  have e60 : ((60 : ℚ)) = ((60 : ℕ) : ℚ) := by norm_num
  have hmul : roundDouble ((n : ℚ) * 60) = (n : ℚ) * 60 := by
    rw [e60]
    exact roundDouble_mul_natCast n 60 h60
  simp [roundDouble_natCast n h53, hmul]

theorem parseNumUnitF_h (n : ℕ) (h53 : n < 2 ^ 53)
    (h36 : n * 3600 < 2 ^ 53) :
    parseNumUnitF (natToDigits n ++ ['h']) = some ((n : ℚ) * 3600) := by
  rw [parseNumUnitF_reduce n ['h'] (by decide) (by decide) (by decide)]
  have e36 : ((3600 : ℚ)) = ((3600 : ℕ) : ℚ) := by norm_num
  have hmul : roundDouble ((n : ℚ) * 3600) = (n : ℚ) * 3600 := by
    rw [e36]
    exact roundDouble_mul_natCast n 3600 h36
  simp [roundDouble_natCast n h53, hmul]

/-- `"{n}s"` parses back to `n` seconds (rounding-faithful model). -/
theorem durationParseF_sOnly (n : ℕ) (h53 : n < 2 ^ 53) :
    durationParseF (String.mk (natToDigits n ++ ['s'])) = some ⟨(n : ℚ)⟩ := by
  have hok : ∀ c ∈ natToDigits n ++ ['s'],
      (∃ d, d < 10 ∧ c = digitChar d) ∨ c ∈ ['m', 'i', 'n', 'h', 's'] := by
    intro c hc
    rcases List.mem_append.1 hc with hc | hc
    · exact Or.inl (natToDigits_digitChars n c hc)
    · simp only [List.mem_singleton] at hc
      subst hc
      exact Or.inr (by decide)
  obtain ⟨hcol, hws⟩ := shape_facts hok
  unfold durationParseF
  rw [strData_mk, pyStripChars_id hws]
  unfold durationParseCharsF
  rw [parseColon_no_colon hcol, parseNumUnitF_s n h53]
  rfl

/-- `"{n}min"` parses back to `n * 60` seconds (rounding-faithful model). -/
theorem durationParseF_minOnly (n : ℕ) (h53 : n < 2 ^ 53)
    (h60 : n * 60 < 2 ^ 53) :
    durationParseF (String.mk (natToDigits n ++ ['m', 'i', 'n'])) =
      some ⟨(n : ℚ) * 60⟩ := by
  have hok : ∀ c ∈ natToDigits n ++ ['m', 'i', 'n'],
      (∃ d, d < 10 ∧ c = digitChar d) ∨ c ∈ ['m', 'i', 'n', 'h', 's'] := by
    intro c hc
    rcases List.mem_append.1 hc with hc | hc
    · exact Or.inl (natToDigits_digitChars n c hc)
    · exact Or.inr (by simp only [List.mem_cons] at hc ⊢; tauto)
  obtain ⟨hcol, hws⟩ := shape_facts hok
  unfold durationParseF
  rw [strData_mk, pyStripChars_id hws]
  unfold durationParseCharsF
  rw [parseColon_no_colon hcol, parseNumUnitF_min n h53 h60]
  rfl

/-- `"{n}h"` parses back to `n * 3600` seconds (rounding-faithful model). -/
theorem durationParseF_hOnly (n : ℕ) (h53 : n < 2 ^ 53)
    (h36 : n * 3600 < 2 ^ 53) :
    durationParseF (String.mk (natToDigits n ++ ['h'])) =
      some ⟨(n : ℚ) * 3600⟩ := by
  have hok : ∀ c ∈ natToDigits n ++ ['h'],
      (∃ d, d < 10 ∧ c = digitChar d) ∨ c ∈ ['m', 'i', 'n', 'h', 's'] := by
    intro c hc
    rcases List.mem_append.1 hc with hc | hc
    · exact Or.inl (natToDigits_digitChars n c hc)
    · simp only [List.mem_singleton] at hc
      subst hc
      exact Or.inr (by decide)
  obtain ⟨hcol, hws⟩ := shape_facts hok
  unfold durationParseF
  rw [strData_mk, pyStripChars_id hws]
  unfold durationParseCharsF
  rw [parseColon_no_colon hcol, parseNumUnitF_h n h53 h36]
  rfl

/-- `"{a}min{b}s"` parses back (via the compound pattern, whose integer
arithmetic is exact) to `a*60 + b` (rounding-faithful model). -/
theorem durationParseF_minSec (a b : ℕ) (hb : b ≠ 0) :
    durationParseF (String.mk (natToDigits a ++
        ('m' :: 'i' :: 'n' :: (natToDigits b ++ ['s'])))) =
      some ⟨((a * 60 + b : ℕ) : ℚ)⟩ := by
  have hok : ∀ c ∈ natToDigits a ++
      ('m' :: 'i' :: 'n' :: (natToDigits b ++ ['s'])),
      (∃ d, d < 10 ∧ c = digitChar d) ∨ c ∈ ['m', 'i', 'n', 'h', 's'] := by
    intro c hc
    simp only [List.mem_append, List.mem_cons, List.not_mem_nil,
      or_false] at hc
    rcases hc with hc | rfl | rfl | rfl | hc | rfl
    · exact Or.inl (natToDigits_digitChars a c hc)
    · exact Or.inr (by decide)
    · exact Or.inr (by decide)
    · exact Or.inr (by decide)
    · exact Or.inl (natToDigits_digitChars b c hc)
    · exact Or.inr (by decide)
  obtain ⟨hcol, hws⟩ := shape_facts hok
  have h1 : ('m' :: 'i' :: 'n' :: (natToDigits b ++ ['s'])).takeWhile
      Char.isDigit = [] := by
    rw [List.takeWhile_cons, if_neg (by decide)]
  have hnu : parseNumUnitF (natToDigits a ++
      ('m' :: 'i' :: 'n' :: (natToDigits b ++ ['s']))) = none := by
    rw [parseNumUnitF_reduce a _ h1 (by simp) (by
      rw [List.dropWhile_cons, if_neg (by decide)])]
    simp [natToDigits_ne_nil b]
  have hLd : (natToDigits a ++
      ('m' :: 'i' :: 'n' :: (natToDigits b ++ ['s']))).dropWhile
        Char.isDigit = 'm' :: 'i' :: 'n' :: (natToDigits b ++ ['s']) := by
    rw [dropWhile_append_all _ (natToDigits_isDigit a),
      dropWhile_of_takeWhile_nil h1]
  have hg1 : grabGroup (natToDigits a ++
      ('m' :: 'i' :: 'n' :: (natToDigits b ++ ['s']))) ['h'] =
      (none, natToDigits a ++
        ('m' :: 'i' :: 'n' :: (natToDigits b ++ ['s']))) := by
    refine grabGroup_miss _ _ ?_
    rw [hLd]
    simp [listStartsWith]
  have hg2 : grabGroup (natToDigits a ++
      ('m' :: 'i' :: 'n' :: (natToDigits b ++ ['s']))) ['m', 'i', 'n'] =
      (some a, natToDigits b ++ ['s']) :=
    grabGroup_hit a ['m', 'i', 'n'] (natToDigits b ++ ['s']) h1
  have hg3 : grabGroup (natToDigits b ++ ['s']) ['s'] = (some b, []) :=
    grabGroup_hit b ['s'] [] (by decide)
  have hcomp : parseCompound (natToDigits a ++
      ('m' :: 'i' :: 'n' :: (natToDigits b ++ ['s']))) =
      some ((a * 60 + b : ℕ) : ℚ) := by
    simp only [parseCompound, hg1, hg2, hg3]
    simp [hb]
  unfold durationParseF
  rw [strData_mk, pyStripChars_id hws]
  unfold durationParseCharsF
  rw [parseColon_no_colon hcol, hnu, hcomp]
  rfl

/-- `"{x}h{m}min{s'}s"` parses back (compound) to `x*3600 + m*60 + s'`
(rounding-faithful model). -/
theorem durationParseF_hMinSec (x m s' : ℕ) (hx : x ≠ 0) :
    durationParseF (String.mk (natToDigits x ++
        ('h' :: (natToDigits m ++
          ('m' :: 'i' :: 'n' :: (natToDigits s' ++ ['s'])))))) =
      some ⟨((x * 3600 + m * 60 + s' : ℕ) : ℚ)⟩ := by
  have hok : ∀ c ∈ natToDigits x ++
      ('h' :: (natToDigits m ++
        ('m' :: 'i' :: 'n' :: (natToDigits s' ++ ['s'])))),
      (∃ d, d < 10 ∧ c = digitChar d) ∨ c ∈ ['m', 'i', 'n', 'h', 's'] := by
    intro c hc
    simp only [List.mem_append, List.mem_cons, List.not_mem_nil,
      or_false] at hc
    rcases hc with hc | rfl | hc | rfl | rfl | rfl | hc | rfl
    · exact Or.inl (natToDigits_digitChars x c hc)
    · exact Or.inr (by decide)
    · exact Or.inl (natToDigits_digitChars m c hc)
    · exact Or.inr (by decide)
    · exact Or.inr (by decide)
    · exact Or.inr (by decide)
    · exact Or.inl (natToDigits_digitChars s' c hc)
    · exact Or.inr (by decide)
  obtain ⟨hcol, hws⟩ := shape_facts hok
  have h1 : List.takeWhile Char.isDigit
      ('h' :: (natToDigits m ++
        ('m' :: 'i' :: 'n' :: (natToDigits s' ++ ['s'])))) = [] := by
    rw [List.takeWhile_cons, if_neg (by decide)]
  have hnu : parseNumUnitF (natToDigits x ++
      ('h' :: (natToDigits m ++
        ('m' :: 'i' :: 'n' :: (natToDigits s' ++ ['s']))))) = none := by
    obtain ⟨d, t, hd, hdig⟩ := natToDigits_head_digit m
    rw [parseNumUnitF_reduce x _ h1 (by simp) (by
      rw [List.dropWhile_cons, if_neg (by decide)]), hdig]
    have hf := digitChar_facts d hd
    simp [hf.2.2.2.2.2.2.2.2.1, hf.2.2.2.2.2.2.2.2.2]
  have h1m : List.takeWhile Char.isDigit
      ('m' :: 'i' :: 'n' :: (natToDigits s' ++ ['s'])) = [] := by
    rw [List.takeWhile_cons, if_neg (by decide)]
  have hg1 : grabGroup (natToDigits x ++
      ('h' :: (natToDigits m ++
        ('m' :: 'i' :: 'n' :: (natToDigits s' ++ ['s']))))) ['h'] =
      (some x, natToDigits m ++
        ('m' :: 'i' :: 'n' :: (natToDigits s' ++ ['s']))) :=
    grabGroup_hit x ['h'] _ h1
  have hg2 : grabGroup (natToDigits m ++
      ('m' :: 'i' :: 'n' :: (natToDigits s' ++ ['s']))) ['m', 'i', 'n'] =
      (some m, natToDigits s' ++ ['s']) :=
    grabGroup_hit m ['m', 'i', 'n'] (natToDigits s' ++ ['s']) h1m
  have hg3 : grabGroup (natToDigits s' ++ ['s']) ['s'] = (some s', []) :=
    grabGroup_hit s' ['s'] [] (by decide)
  have hcomp : parseCompound (natToDigits x ++
      ('h' :: (natToDigits m ++
        ('m' :: 'i' :: 'n' :: (natToDigits s' ++ ['s']))))) =
      some ((x * 3600 + m * 60 + s' : ℕ) : ℚ) := by
    simp only [parseCompound, hg1, hg2, hg3]
    simp [hx]
  unfold durationParseF
  rw [strData_mk, pyStripChars_id hws]
  unfold durationParseCharsF
  rw [parseColon_no_colon hcol, hnu, hcomp]
  rfl

/-- `"{x}h{s'}s"` parses back (compound) to `x*3600 + s'`
(rounding-faithful model). -/
theorem durationParseF_hSec (x s' : ℕ) (hx : x ≠ 0) :
    durationParseF (String.mk (natToDigits x ++
        ('h' :: (natToDigits s' ++ ['s'])))) =
      some ⟨((x * 3600 + s' : ℕ) : ℚ)⟩ := by
  have hok : ∀ c ∈ natToDigits x ++ ('h' :: (natToDigits s' ++ ['s'])),
      (∃ d, d < 10 ∧ c = digitChar d) ∨ c ∈ ['m', 'i', 'n', 'h', 's'] := by
    intro c hc
    simp only [List.mem_append, List.mem_cons, List.not_mem_nil,
      or_false] at hc
    rcases hc with hc | rfl | hc | rfl
    · exact Or.inl (natToDigits_digitChars x c hc)
    · exact Or.inr (by decide)
    · exact Or.inl (natToDigits_digitChars s' c hc)
    · exact Or.inr (by decide)
  obtain ⟨hcol, hws⟩ := shape_facts hok
  have h1 : List.takeWhile Char.isDigit
      ('h' :: (natToDigits s' ++ ['s'])) = [] := by
    rw [List.takeWhile_cons, if_neg (by decide)]
  have hnu : parseNumUnitF (natToDigits x ++
      ('h' :: (natToDigits s' ++ ['s']))) = none := by
    obtain ⟨d, t, hd, hdig⟩ := natToDigits_head_digit s'
    rw [parseNumUnitF_reduce x _ h1 (by simp) (by
      rw [List.dropWhile_cons, if_neg (by decide)]), hdig]
    have hf := digitChar_facts d hd
    simp [hf.2.2.2.2.2.2.2.2.1, hf.2.2.2.2.2.2.2.2.2]
  have hg1 : grabGroup (natToDigits x ++
      ('h' :: (natToDigits s' ++ ['s']))) ['h'] =
      (some x, natToDigits s' ++ ['s']) :=
    grabGroup_hit x ['h'] _ h1
  have hsd : (natToDigits s' ++ ['s']).dropWhile Char.isDigit = ['s'] := by
    rw [dropWhile_append_all _ (natToDigits_isDigit s')]
    decide
  have hg2 : grabGroup (natToDigits s' ++ ['s']) ['m', 'i', 'n'] =
      (none, natToDigits s' ++ ['s']) := by
    refine grabGroup_miss _ _ ?_
    rw [hsd]
    decide
  have hg3 : grabGroup (natToDigits s' ++ ['s']) ['s'] = (some s', []) :=
    grabGroup_hit s' ['s'] [] (by decide)
  have hcomp : parseCompound (natToDigits x ++
      ('h' :: (natToDigits s' ++ ['s']))) =
      some ((x * 3600 + s' : ℕ) : ℚ) := by
    simp only [parseCompound, hg1, hg2, hg3]
    simp [hx]
  unfold durationParseF
  rw [strData_mk, pyStripChars_id hws]
  unfold durationParseCharsF
  rw [parseColon_no_colon hcol, hnu, hcomp]
  rfl

/-- `"{x}h{m}min"` parses back (compound) to `x*3600 + m*60`
(rounding-faithful model). -/
theorem durationParseF_hMin (x m : ℕ) (hx : x ≠ 0) :
    durationParseF (String.mk (natToDigits x ++
        ('h' :: (natToDigits m ++ ['m', 'i', 'n'])))) =
      some ⟨((x * 3600 + m * 60 : ℕ) : ℚ)⟩ := by
  have hok : ∀ c ∈ natToDigits x ++ ('h' :: (natToDigits m ++ ['m', 'i', 'n'])),
      (∃ d, d < 10 ∧ c = digitChar d) ∨ c ∈ ['m', 'i', 'n', 'h', 's'] := by
    intro c hc
    simp only [List.mem_append, List.mem_cons, List.not_mem_nil,
      or_false] at hc
    rcases hc with hc | rfl | hc | rfl | rfl | rfl
    · exact Or.inl (natToDigits_digitChars x c hc)
    · exact Or.inr (by decide)
    · exact Or.inl (natToDigits_digitChars m c hc)
    · exact Or.inr (by decide)
    · exact Or.inr (by decide)
    · exact Or.inr (by decide)
  obtain ⟨hcol, hws⟩ := shape_facts hok
  have h1 : List.takeWhile Char.isDigit
      ('h' :: (natToDigits m ++ ['m', 'i', 'n'])) = [] := by
    rw [List.takeWhile_cons, if_neg (by decide)]
  have hnu : parseNumUnitF (natToDigits x ++
      ('h' :: (natToDigits m ++ ['m', 'i', 'n']))) = none := by
    obtain ⟨d, t, hd, hdig⟩ := natToDigits_head_digit m
    rw [parseNumUnitF_reduce x _ h1 (by simp) (by
      rw [List.dropWhile_cons, if_neg (by decide)]), hdig]
    have hf := digitChar_facts d hd
    simp [hf.2.2.2.2.2.2.2.2.1, hf.2.2.2.2.2.2.2.2.2]
  have hg1 : grabGroup (natToDigits x ++
      ('h' :: (natToDigits m ++ ['m', 'i', 'n']))) ['h'] =
      (some x, natToDigits m ++ ['m', 'i', 'n']) :=
    grabGroup_hit x ['h'] _ h1
  have hg2 : grabGroup (natToDigits m ++ ['m', 'i', 'n']) ['m', 'i', 'n'] =
      (some m, []) :=
    grabGroup_hit m ['m', 'i', 'n'] [] (by decide)
  have hg3 : grabGroup ([] : List Char) ['s'] = (none, []) := by decide
  have hcomp : parseCompound (natToDigits x ++
      ('h' :: (natToDigits m ++ ['m', 'i', 'n']))) =
      some ((x * 3600 + m * 60 : ℕ) : ℚ) := by
    simp only [parseCompound, hg1, hg2, hg3]
    simp [hx]
  unfold durationParseF
  rw [strData_mk, pyStripChars_id hws]
  unfold durationParseCharsF
  rw [parseColon_no_colon hcol, hnu, hcomp]
  rfl

/-- Round trip for every integral-second duration below `2 ^ 53` in the
rounding-faithful model, by cases on the formatter's branches: in this
range every float operation the two functions perform is exact. -/
theorem durationParseF_durStrF_natCast (n : ℕ) (h53 : n < 2 ^ 53) :
    durationParseF (durStrF ⟨(n : ℚ)⟩) = some ⟨(n : ℚ)⟩ := by
  have hp53 : (2 : ℕ) ^ 53 = 9007199254740992 := by norm_num
  have hmin : ("min" : String).data = ['m', 'i', 'n'] := rfl
  have hsd : ("s" : String).data = ['s'] := rfl
  have hhd : ("h" : String).data = ['h'] := rfl
  have hed : ("" : String).data = [] := rfl
  rcases Nat.lt_or_ge n 60 with h | h
  · rw [durStrF_lt60 n h]
    exact durationParseF_sOnly n h53
  · rcases Nat.lt_or_ge n 3600 with h2 | h2
    · by_cases h3 : 60 ∣ n
      · rw [durStrF_wholeMin n h h2 h3]
        refine (durationParseF_minOnly (n / 60) (by omega) (by omega)).trans ?_
        have hv : ((n / 60 : ℕ) : ℚ) * 60 = (n : ℚ) := by
          rw_mod_cast [Nat.div_mul_cancel h3]
        rw [hv]
      · rw [durStrF_minSec n h h2 h3]
        have hb : n % 60 ≠ 0 := fun hc => h3 (Nat.dvd_of_mod_eq_zero hc)
        have hstr : natRepr (n / 60) ++ "min" ++ natRepr (n % 60) ++ "s" =
            String.mk (natToDigits (n / 60) ++
              ('m' :: 'i' :: 'n' :: (natToDigits (n % 60) ++ ['s']))) :=
          string_eq_of_data (by
            simp [strData_append, strData_mk, natRepr, hmin, hsd,
              List.append_assoc])
        rw [hstr, durationParseF_minSec (n / 60) (n % 60) hb]
        have hv : n / 60 * 60 + n % 60 = n := by omega
        rw [hv]
    · by_cases h3 : 3600 ∣ n
      · rw [durStrF_wholeHour n h2 h53 h3]
        refine (durationParseF_hOnly (n / 3600) (by omega) (by omega)).trans ?_
        have hv : ((n / 3600 : ℕ) : ℚ) * 3600 = (n : ℚ) := by
          rw_mod_cast [Nat.div_mul_cancel h3]
        rw [hv]
      · rw [durStrF_hourCompound n h2 h53 h3]
        have hx : n / 3600 ≠ 0 := by omega
        have hnd : ¬ (n % 3600 = 0) := by omega
        by_cases hm : n % 3600 / 60 = 0
        · have hs : n % 3600 % 60 ≠ 0 := by omega
          rw [if_neg (by omega), if_pos hs]
          have hstr : natRepr (n / 3600) ++ "h" ++ "" ++
              (natRepr (n % 3600 % 60) ++ "s") =
              String.mk (natToDigits (n / 3600) ++
                ('h' :: (natToDigits (n % 3600 % 60) ++ ['s']))) :=
            string_eq_of_data (by
              simp [strData_append, strData_mk, natRepr, hhd, hsd, hed,
                List.append_assoc])
          rw [hstr, durationParseF_hSec (n / 3600) (n % 3600 % 60) hx]
          have hv : n / 3600 * 3600 + n % 3600 % 60 = n := by omega
          rw [hv]
        · by_cases hs : n % 3600 % 60 = 0
          · rw [if_pos hm, if_neg (by omega)]
            have hstr : natRepr (n / 3600) ++ "h" ++
                (natRepr (n % 3600 / 60) ++ "min") ++ "" =
                String.mk (natToDigits (n / 3600) ++
                  ('h' :: (natToDigits (n % 3600 / 60) ++
                    ['m', 'i', 'n']))) :=
              string_eq_of_data (by
                simp [strData_append, strData_mk, natRepr, hhd, hmin, hed,
                  List.append_assoc])
            rw [hstr, durationParseF_hMin (n / 3600) (n % 3600 / 60) hx]
            have hv : n / 3600 * 3600 + n % 3600 / 60 * 60 = n := by omega
            rw [hv]
          · rw [if_pos hm, if_pos hs]
            have hstr : natRepr (n / 3600) ++ "h" ++
                (natRepr (n % 3600 / 60) ++ "min") ++
                (natRepr (n % 3600 % 60) ++ "s") =
                String.mk (natToDigits (n / 3600) ++
                  ('h' :: (natToDigits (n % 3600 / 60) ++
                    ('m' :: 'i' :: 'n' ::
                      (natToDigits (n % 3600 % 60) ++ ['s']))))) :=
              string_eq_of_data (by
                simp [strData_append, strData_mk, natRepr, hhd, hmin, hsd,
                  List.append_assoc])
            rw [hstr, durationParseF_hMinSec (n / 3600) (n % 3600 / 60)
              (n % 3600 % 60) hx]
            have hv : n / 3600 * 3600 + n % 3600 / 60 * 60 +
                n % 3600 % 60 = n := by omega
            rw [hv]

set_option maxRecDepth 100000 in
/-- **C10** (counterexample).  The claim as stated — *every* integral
nonnegative duration round-trips through `str`/`parse` — is false in the
program.  For the integral double `16212958658533787648.0`
(= `3600 * 2 ^ 52 + 2048`, exactly representable, not divisible by 3600),
the float division `s / 3600` in `__str__` rounds to the *whole* double
`4503599627370497.0` (= `2 ^ 52 + 1`), so the rendering is
`"4503599627370497h"`; re-parsing computes `4503599627370497.0 * 3600`,
which rounds to `16212958658533789696.0 ≠ s`. -/
theorem c10_roundtrip_integral_counterexample :
    ((⟨(16212958658533787648 : ℚ)⟩ : Duration)).seconds.den = 1 ∧
    0 ≤ ((⟨(16212958658533787648 : ℚ)⟩ : Duration)).seconds ∧
    durStrF ⟨(16212958658533787648 : ℚ)⟩ = "4503599627370497h" ∧
    durationParseF "4503599627370497h" =
      some ⟨(16212958658533789696 : ℚ)⟩ ∧
    durationParseF (durStrF ⟨(16212958658533787648 : ℚ)⟩) ≠
      some ⟨(16212958658533787648 : ℚ)⟩ := by
  refine ⟨by decide, by decide, by decide, by decide, by decide⟩

/-- **C10** (corrected).  For every `Duration` whose seconds value is a
nonnegative whole number *below `2 ^ 53`* — the range in which every
integer is an exact binary64 value and each float operation the two
functions perform is exact — parsing the canonical rendering returns an
equal `Duration`: `Duration.parse(str(d)) == d`.  Above `2 ^ 53` the
round trip can fail (see the counterexample). -/
theorem c10_duration_roundtrip_small_integral (d : Duration)
    (h1 : d.seconds.den = 1) (h2 : 0 ≤ d.seconds)
    (h3 : d.seconds < 2 ^ 53) :
    durationParseF (durStrF d) = some d := by
  obtain ⟨q⟩ := d
  simp only at h1 h2 h3 ⊢
  have hnum : ((q.num : ℚ)) = q := (Rat.den_eq_one_iff q).1 h1
  have hge : 0 ≤ q.num := Rat.num_nonneg.2 h2
  have hq : q = ((q.num.toNat : ℕ) : ℚ) := by
    rw [← hnum]
    exact_mod_cast (Int.toNat_of_nonneg hge).symm
  have hlt : q.num.toNat < 2 ^ 53 := by
    have hc : ((q.num.toNat : ℕ) : ℚ) < 2 ^ 53 := by
      rw [← hq]
      exact h3
    exact_mod_cast hc
  rw [hq]
  exact durationParseF_durStrF_natCast q.num.toNat hlt

/-- Witness for C10's amended theorem at the concrete duration 5282 s
(`"1h28min2s"`). -/
theorem c10_duration_roundtrip_small_integral_witness :
    ((⟨(5282 : ℚ)⟩ : Duration)).seconds.den = 1 ∧
    0 ≤ ((⟨(5282 : ℚ)⟩ : Duration)).seconds ∧
    ((⟨(5282 : ℚ)⟩ : Duration)).seconds < 2 ^ 53 ∧
    durationParseF (durStrF ⟨(5282 : ℚ)⟩) = some ⟨(5282 : ℚ)⟩ :=
  ⟨by norm_num, by norm_num, by norm_num,
    c10_duration_roundtrip_small_integral ⟨(5282 : ℚ)⟩ (by norm_num)
      (by norm_num) (by norm_num)⟩

end Owf
